import Mathlib

/-!
# Verification of the rotmg-player-stats aggregation core

This file is a shallow embedding, in Lean 4, of the aggregation,
interpolation, merge, codec and metrics pipeline of the repository
`MarvNC/rotmg-player-stats` (sources `src/scripts/aggregate.ts` and the
metrics module `src/utils/metrics.ts`), together with theorems settling the
specification claims about it.

Modelling conventions, fixed once and used throughout:

* JavaScript numbers are modelled as exact integers (`Int`) where the code
  manipulates integer values (timestamps in milliseconds, views, players),
  and as exact rationals (`ℚ`) where the code divides (interpolation
  ratios, amortized deltas).  All concrete values handled by the pipeline
  are far below 2^53, where JavaScript float arithmetic on integers is
  exact, so this is faithful.
* `Math.floor(x / y)` on integers is `Int` division `/` (which in this
  development is Euclidean division, i.e. floor division for positive
  divisors), `Math.round` is `round` (`⌊x + 1/2⌋`, which matches the
  JavaScript half-up behaviour for both signs).
* JavaScript strings are `String`, manipulated exclusively through their
  character list `String.data`; `a < b` on JavaScript strings (code-unit
  order, and `localeCompare` on the ASCII `YYYY-MM-DD` dates the pipeline
  sorts) is the lexicographic order on `String.data`.
* A JavaScript `Map` is an association list in insertion order;
  `Map.set` replaces in place (`mapSet`), `Map.get` is `List.lookup`.
* Loops with non-structural termination are given explicit fuel; the entry
  points pass enough fuel, and the theorems prove it is never exhausted.
-/

/-- JavaScript array indexing `a[i]` with a possibly negative index:
`undefined` (here `none`) outside the array. -/
def jsGet {α : Type} (l : List α) (i : Int) : Option α :=
  if 0 ≤ i then l[i.toNat]? else none

/-- JavaScript `Map.set m k v`: replace the value in place if the key is
present (keeping its position), otherwise append the new entry. -/
def mapSet {α β : Type} [BEq α] (m : List (α × β)) (k : α) (v : β) : List (α × β) :=
  if m.any (fun p => p.1 == k) then
    m.map (fun p => if p.1 == k then (k, v) else p)
  else
    m ++ [(k, v)]

theorem mapSet_cons_ne {α β : Type} [BEq α] (p : α × β) (rest : List (α × β))
    (k : α) (v : β) (hp : (p.1 == k) = false) :
    mapSet (p :: rest) k v = p :: mapSet rest k v := by
  unfold mapSet
  simp only [List.any_cons, hp, Bool.false_or]
  by_cases hany : rest.any (fun q => q.1 == k)
  · simp [hany, hp]
  · simp [hany, hp]

theorem mapSet_cons_eq {α β : Type} [BEq α] (p : α × β) (rest : List (α × β))
    (k : α) (v : β) (hp : (p.1 == k) = true) :
    mapSet (p :: rest) k v =
      (k, v) :: rest.map (fun q => if q.1 == k then (k, v) else q) := by
  unfold mapSet
  simp [List.any_cons, hp]

theorem lookup_map_replace {α β : Type} [BEq α] [LawfulBEq α]
    (m : List (α × β)) (k d : α) (v : β) (hd : (d == k) = false) :
    (m.map (fun q => if q.1 == k then (k, v) else q)).lookup d = m.lookup d := by
  induction m with
  | nil => rfl
  | cons q rest ih =>
    rw [List.map_cons]
    by_cases hq : (q.1 == k) = true
    · rw [if_pos hq, List.lookup_cons, List.lookup_cons]
      have hdq : (d == q.1) = false := by rw [eq_of_beq hq]; exact hd
      simp only [hd, hdq]
      exact ih
    · rw [if_neg hq, List.lookup_cons, List.lookup_cons]
      cases hdq : d == q.1
      · exact ih
      · rfl

theorem lookup_mapSet_self {α β : Type} [BEq α] [LawfulBEq α]
    (m : List (α × β)) (k : α) (v : β) :
    (mapSet m k v).lookup k = some v := by
  induction m with
  | nil => simp [mapSet, List.lookup]
  | cons p rest ih =>
    by_cases hp : p.1 == k
    · rw [mapSet_cons_eq p rest k v hp, List.lookup_cons]
      simp
    · rw [mapSet_cons_ne p rest k v (by simpa using hp), List.lookup_cons]
      have hkp : (k == p.1) = false := by
        simp only [beq_eq_false_iff_ne, ne_eq]
        intro h
        exact hp (by simp [h])
      simp only [hkp]
      exact ih

theorem lookup_mapSet_ne {α β : Type} [BEq α] [LawfulBEq α]
    (m : List (α × β)) (k d : α) (v : β) (hne : (d == k) = false) :
    (mapSet m k v).lookup d = m.lookup d := by
  induction m with
  | nil => simp [mapSet, List.lookup, hne]
  | cons p rest ih =>
    by_cases hp : p.1 == k
    · rw [mapSet_cons_eq p rest k v hp, List.lookup_cons]
      have hpk : p.1 = k := by simpa using hp
      simp only [hne]
      rw [lookup_map_replace rest k d v hne, List.lookup_cons, hpk, hne]
    · rw [mapSet_cons_ne p rest k v (by simpa using hp), List.lookup_cons, List.lookup_cons]
      cases hdp : d == p.1
      · exact ih
      · rfl

/-- Keys present in an association list. -/
def mapKeys {α β : Type} (m : List (α × β)) : List α := m.map Prod.fst

theorem lookup_eq_none_of_not_mem_keys {α β : Type} [BEq α] [LawfulBEq α]
    (m : List (α × β)) (d : α) (h : d ∉ mapKeys m) : m.lookup d = none := by
  induction m with
  | nil => rfl
  | cons p rest ih =>
    simp only [mapKeys, List.map_cons, List.mem_cons, not_or] at h
    rw [List.lookup_cons]
    have : (d == p.1) = false := by
      cases hdp : d == p.1
      · rfl
      · exact absurd (eq_of_beq hdp) h.1
    simp only [this]
    exact ih h.2

theorem mapSet_append_of_not_mem {α β : Type} [BEq α] [LawfulBEq α]
    (m : List (α × β)) (k : α) (v : β) (h : k ∉ mapKeys m) :
    mapSet m k v = m ++ [(k, v)] := by
  unfold mapSet
  have : m.any (fun p => p.1 == k) = false := by
    rw [List.any_eq_false]
    intro p hp
    cases hpk : p.1 == k
    · simp
    · exact absurd (by rw [← eq_of_beq hpk]; exact List.mem_map_of_mem Prod.fst hp) h
  simp [this]

/-- The maximum of a list of integers, `none` on the empty list. -/
def listMaxO (l : List Int) : Option Int :=
  match l with
  | [] => none
  | x :: xs =>
    some (match listMaxO xs with
          | none => x
          | some m => max x m)

/-- Combine two optional maxima. -/
def optMax (a b : Option Int) : Option Int :=
  match a, b with
  | none, b => b
  | a, none => a
  | some x, some y => some (max x y)

theorem optMax_assoc (a b c : Option Int) :
    optMax (optMax a b) c = optMax a (optMax b c) := by
  cases a <;> cases b <;> cases c <;> simp [optMax, max_assoc]

theorem listMaxO_cons (x : Int) (xs : List Int) :
    listMaxO (x :: xs) = optMax (some x) (listMaxO xs) := by
  cases h : listMaxO xs <;> simp [listMaxO, optMax, h]

/-! ## JavaScript string primitives, modelled on `String.data` -/

/-- ASCII whitespace recognised by JavaScript `trim` (the Unicode cases are
irrelevant to this pipeline's inputs). -/
def isWsChar (c : Char) : Bool :=
  c == ' ' || c == '\t' || c == '\n' || c == '\r' || c == Char.ofNat 11 || c == Char.ofNat 12

/-- Characters of a string with leading and trailing whitespace removed. -/
def trimCharList (l : List Char) : List Char :=
  ((l.dropWhile isWsChar).reverse.dropWhile isWsChar).reverse

/-- JavaScript `String.prototype.trim`. -/
def jsTrim (s : String) : String := ⟨trimCharList s.data⟩

/-- Splitting on a separator character: worker over the character list,
accumulating the current (reversed) field. -/
def splitSepAux (sep : Char) : List Char → List Char → List (List Char)
  | [], cur => [cur.reverse]
  | c :: rest, cur =>
    if c == sep then cur.reverse :: splitSepAux sep rest []
    else splitSepAux sep rest (c :: cur)

/-- JavaScript `String.prototype.split` on a one-character separator
(without a limit; a limit is `List.take`). -/
def jsSplit (sep : Char) (s : String) : List String :=
  (splitSepAux sep s.data []).map String.mk

/-- Numeric value of a digit-character list (most significant first). -/
def charsVal (l : List Char) : Int :=
  l.foldl (fun acc c => acc * 10 + ((c.toNat : Int) - 48)) 0

/-- Value of the longest leading digit run, `none` when there is none. -/
def leadingDigitsVal (l : List Char) : Option Int :=
  match l.takeWhile Char.isDigit with
  | [] => none
  | ds => some (charsVal ds)

/-- JavaScript `Number.parseInt(s, 10)`: skip whitespace, optional sign,
then the longest digit run; `NaN` (here `none`) when no digit follows.
Trailing non-digit text is ignored, exactly as in JavaScript. -/
def jsParseInt (s : String) : Option Int :=
  match s.data.dropWhile isWsChar with
  | '-' :: rest => (leadingDigitsVal rest).map (fun n => -n)
  | '+' :: rest => leadingDigitsVal rest
  | cs => leadingDigitsVal cs

/-- The strict date pattern `/^\d{4}-\d{2}-\d{2}$/`. -/
def isDateFormat (s : String) : Bool :=
  match s.data with
  | [y1, y2, y3, y4, h1, m1, m2, h2, d1, d2] =>
    y1.isDigit && y2.isDigit && y3.isDigit && y4.isDigit && h1 == '-' &&
      m1.isDigit && m2.isDigit && h2 == '-' && d1.isDigit && d2.isDigit
  | _ => false

/-- The strict clock pattern `/^\d{2}:\d{2}:\d{2}$/`. -/
def isTimeFormat (s : String) : Bool :=
  match s.data with
  | [h1, h2, c1, m1, m2, c2, s1, s2] =>
    h1.isDigit && h2.isDigit && c1 == ':' && m1.isDigit && m2.isDigit &&
      c2 == ':' && s1.isDigit && s2.isDigit
  | _ => false

/-! ## UTC calendar arithmetic (the relevant behaviour of `Date.parse` and
`Date.prototype.toISOString`), via the standard civil-calendar algorithms -/

def msPerDay : Int := 86400000

def isLeapYear (y : Int) : Bool :=
  (y % 4 == 0 && y % 100 != 0) || y % 400 == 0

def daysInMonth (y m : Int) : Int :=
  if m == 2 then (if isLeapYear y then 29 else 28)
  else if m == 4 || m == 6 || m == 9 || m == 11 then 30
  else 31

/-- Days since 1970-01-01 of the civil date `y-m-d` (Euclidean `/` is floor
division here, so no case split on the sign of the year is needed). -/
def daysFromCivil (y m d : Int) : Int :=
  let y2 := if m ≤ 2 then y - 1 else y
  let era := y2 / 400
  let yoe := y2 - era * 400
  let doy := (153 * (if 2 < m then m - 3 else m + 9) + 2) / 5 + d - 1
  let doe := yoe * 365 + yoe / 4 - yoe / 100 + doy
  era * 146097 + doe - 719468

/-- Civil date `(y, m, d)` of a day count since 1970-01-01. -/
def civilFromDays (z : Int) : Int × Int × Int :=
  let z2 := z + 719468
  let era := z2 / 146097
  let doe := z2 - era * 146097
  let yoe := (doe - doe / 1460 + doe / 36524 - doe / 146096) / 365
  let y := yoe + era * 400
  let doy := doe - (365 * yoe + yoe / 4 - yoe / 100)
  let mp := (5 * doy + 2) / 153
  let d := doy - (153 * mp + 2) / 5 + 1
  let m := if mp < 10 then mp + 3 else mp - 9
  (if m ≤ 2 then y + 1 else y, m, d)

def digitChar (n : Nat) : Char := Char.ofNat (48 + n % 10)

/-- Fixed-width zero-padded decimal rendering. -/
def padNum (w : Nat) (n : Nat) : String :=
  ⟨(List.range w).reverse.map (fun i => digitChar ((n / 10 ^ i) % 10))⟩

/-- `Date.parse` of a strict `YYYY-MM-DD` string, in days since the epoch;
`none` models `NaN` (calendar-invalid component values). -/
def dateToDays (s : String) : Option Int :=
  match s.data with
  | [y1, y2, y3, y4, h1, m1, m2, h2, d1, d2] =>
    if y1.isDigit && y2.isDigit && y3.isDigit && y4.isDigit && h1 == '-' &&
        m1.isDigit && m2.isDigit && h2 == '-' && d1.isDigit && d2.isDigit then
      let y := charsVal [y1, y2, y3, y4]
      let m := charsVal [m1, m2]
      let d := charsVal [d1, d2]
      if 1 ≤ m ∧ m ≤ 12 ∧ 1 ≤ d ∧ d ≤ daysInMonth y m then
        some (daysFromCivil y m d)
      else none
    else none
  | _ => none

/-- `Date.parse` of a strict `HH:MM:SS` clock string, in milliseconds past
midnight; ECMA-262 also admits `24:00:00`. `none` models `NaN`. -/
def timeToMs (s : String) : Option Int :=
  match s.data with
  | [h1, h2, c1, m1, m2, c2, s1, s2] =>
    if h1.isDigit && h2.isDigit && c1 == ':' && m1.isDigit && m2.isDigit &&
        c2 == ':' && s1.isDigit && s2.isDigit then
      let hh := charsVal [h1, h2]
      let mm := charsVal [m1, m2]
      let ss := charsVal [s1, s2]
      if (hh ≤ 23 ∧ mm ≤ 59 ∧ ss ≤ 59) ∨ (hh = 24 ∧ mm = 0 ∧ ss = 0) then
        some ((hh * 3600 + mm * 60 + ss) * 1000)
      else none
    else none
  | _ => none

/-- `Date.parse` of the template literal `` `${date}T${time}Z` `` used by
`normalizeLauncherPoints`. -/
def parseTimestampMs (date time : String) : Option Int :=
  match dateToDays date, timeToMs time with
  | some dd, some t => some (dd * msPerDay + t)
  | _, _ => none

/-- `dateStartUtcMs` of `aggregate.ts` (`Date.parse` at midnight UTC), as an
option: `none` models `NaN`. -/
def dateStartMsOpt (s : String) : Option Int := (dateToDays s).map (· * msPerDay)

/-- `formatUtcDate` of `aggregate.ts`: the date part of `toISOString`. -/
def formatUtcDate (ms : Int) : String :=
  let c := civilFromDays (ms / msPerDay)
  padNum 4 c.1.toNat ++ "-" ++ padNum 2 c.2.1.toNat ++ "-" ++ padNum 2 c.2.2.toNat

/-- `Date.prototype.toISOString` for a millisecond timestamp. -/
def toIsoString (ms : Int) : String :=
  let t := ms % msPerDay
  formatUtcDate ms ++ "T" ++ padNum 2 (t / 3600000).toNat ++ ":" ++
    padNum 2 (t % 3600000 / 60000).toNat ++ ":" ++ padNum 2 (t % 60000 / 1000).toNat ++
    "." ++ padNum 3 (t % 1000).toNat ++ "Z"

/-! ## Pipeline constants (`aggregate.ts` lines 42-43, metrics line 99) -/

def launcherMinDate : String := "2024-07-03"

def launcherMinDay : Int := (dateToDays launcherMinDate).getD 0

def launcherMinDateMs : Int := launcherMinDay * msPerDay

def maxInterpolationGapMs : Int := 48 * 60 * 60 * 1000

def maxDeltaGapDays : Int := 7

/-! ## Data model (`aggregate.ts` lines 5-34, `types.ts`, `metrics.ts`) -/

structure Row where
  date : String
  players : Int
deriving DecidableEq

structure LauncherRow where
  time : String
  date : String
  views : Int
deriving DecidableEq

structure LauncherPoint where
  timestampMs : Int
  views : Int
deriving DecidableEq

structure DailyPoint where
  date : String
  realmeye_max : Option Int
  realmstock_max : Option Int
  launcher_loads : Option Int
deriving DecidableEq

structure CompactDaily where
  u : String
  d : List String
  a : List (Option Int)
  c : List (Option Int)
  f : List (Option Int)
deriving DecidableEq

structure StatsEntry where
  value : Option Int
  date : Option String
deriving DecidableEq

structure StatsSummary where
  currentRealmeye : Option Int
  allTimePeak : StatsEntry
  allTimeLow : StatsEntry
  lastUpdatedAt : Option String
deriving DecidableEq

structure TableRow where
  date : String
  realmeye_max : Option Int
  realmstock_max : Option Int
  launcher_loads : Option Int
  realmeye_delta : Option Int
  realmstock_delta : Option Int
  launcher_delta : Option Int
deriving DecidableEq

/-! ## Sample normalizer (`aggregate.ts` lines 45-79 and 95-127) -/

/-- Line splitting and cleanup shared by both CSV readers: split on line
breaks, trim every line, drop empty lines (`filter(Boolean)`). -/
def splitLines (text : String) : List String :=
  ((jsSplit '\n' text).map jsTrim).filter (fun l => l ≠ "")

/-- Body of the `parseCsvRows` loop for one line: `line.split(",", 3)`,
trim the parts, require a non-empty date and value, `parseInt` the value
(`Number.isFinite` fails exactly when `parseInt` returns `NaN`), then the
strict date pattern.  `none` is `continue` (the row is dropped). -/
def parseCsvLine (line : String) : Option Row :=
  let columns := ((jsSplit ',' line).take 3).map jsTrim
  let rawDate := (columns[1]?).getD ""
  let rawPlayers := (columns[2]?).getD ""
  if rawDate = "" ∨ rawPlayers = "" then none
  else
    match jsParseInt rawPlayers with
    | none => none
    | some players =>
      if isDateFormat rawDate then some ⟨rawDate, players⟩ else none

/-- `parseCsvRows`: a missing file (`none`) yields no rows; otherwise every
line is parsed independently and malformed lines are dropped. -/
def parseCsvRows (content : Option String) : List Row :=
  match content with
  | none => []
  | some text => (splitLines text).filterMap parseCsvLine

/-- Body of the `parseLauncherRows` loop for one line: additionally checks
the clock pattern on the first column and rejects negative views. -/
def parseLauncherLine (line : String) : Option LauncherRow :=
  let columns := ((jsSplit ',' line).take 3).map jsTrim
  let rawTime := (columns[0]?).getD ""
  let rawDate := (columns[1]?).getD ""
  let rawViews := (columns[2]?).getD ""
  if rawTime = "" ∨ rawDate = "" ∨ rawViews = "" then none
  else if ¬ (isTimeFormat rawTime = true ∧ isDateFormat rawDate = true) then none
  else
    match jsParseInt rawViews with
    | none => none
    | some views => if views < 0 then none else some ⟨rawTime, rawDate, views⟩

/-- `parseLauncherRows`. -/
def parseLauncherRows (content : Option String) : List LauncherRow :=
  match content with
  | none => []
  | some text => (splitLines text).filterMap parseLauncherLine

/-! ## Daily max aggregator (`aggregate.ts` lines 81-93) -/

/-- Body of the `aggregateMaxByDate` loop: keep the larger value per date
(`existing == null || row.players > existing`). -/
def maxByDateStep (daily : List (String × Int)) (row : Row) : List (String × Int) :=
  match daily.lookup row.date with
  | none => mapSet daily row.date row.players
  | some existing =>
    if existing < row.players then mapSet daily row.date row.players else daily

/-- `aggregateMaxByDate`: date → max map, built over the rows in order. -/
def aggregateMaxByDate (rows : List Row) : List (String × Int) :=
  rows.foldl maxByDateStep []

/-! ## Cumulative counter interpolator (`aggregate.ts` lines 137-260) -/

/-- Body of the `normalizeLauncherPoints` loop: drop rows dated before the
cutoff (JavaScript string `<`, i.e. lexicographic on the characters), drop
rows whose timestamp does not parse, and deduplicate by exact timestamp
keeping the larger view count. -/
def normalizeStep (m : List (Int × Int)) (row : LauncherRow) : List (Int × Int) :=
  if row.date.data < launcherMinDate.data then m
  else
    match parseTimestampMs row.date row.time with
    | none => m
    | some timestampMs =>
      match m.lookup timestampMs with
      | none => mapSet m timestampMs row.views
      | some existing =>
        if existing < row.views then mapSet m timestampMs row.views else m

/-- `normalizeLauncherPoints`: deduplicated samples sorted ascending by
timestamp (the JavaScript numeric-comparator `sort`; keys are distinct, so
any correct ascending sort produces the same list). -/
def normalizeLauncherPoints (rows : List LauncherRow) : List LauncherPoint :=
  ((rows.foldl normalizeStep []).map (fun p => LauncherPoint.mk p.1 p.2)).insertionSort
    (fun a b => a.timestampMs ≤ b.timestampMs)

/-- The `while (low <= high)` binary search of `interpolateLauncherViewsAt`
(lines 176-195): `Sum.inl` is the early `return point.views` on an exact
timestamp hit, `Sum.inr (low, high)` is leaving the loop with the final
bounds (also on the defensive `break`, which keeps the current bounds).
The fuel only bounds the iteration count; the entry point passes
`points.length`, which the specification lemma proves sufficient. -/
def bsearchViews (points : List LauncherPoint) (target : Int) :
    Int → Int → Nat → Sum Int (Int × Int)
  | low, high, 0 => Sum.inr (low, high)
  | low, high, fuel + 1 =>
    if low ≤ high then
      let mid := (low + high) / 2
      match jsGet points mid with
      | none => Sum.inr (low, high)
      | some point =>
        if point.timestampMs = target then Sum.inl point.views
        else if point.timestampMs < target then bsearchViews points target (mid + 1) high fuel
        else bsearchViews points target low (mid - 1) fuel
    else Sum.inr (low, high)

/-- `interpolateLauncherViewsAt` (lines 161-221): `none` is `null`; the
interpolated value is an exact rational. -/
def interpolateLauncherViewsAt (points : List LauncherPoint) (targetTimestampMs : Int) :
    Option ℚ :=
  match points.head?, points.getLast? with
  | some first, some last =>
    if targetTimestampMs < first.timestampMs ∨ last.timestampMs < targetTimestampMs then none
    else
      match bsearchViews points targetTimestampMs 0 ((points.length : Int) - 1) points.length with
      | Sum.inl views => some (views : ℚ)
      | Sum.inr (low, high) =>
        match jsGet points high, jsGet points low with
        | some previous, some next =>
          let spanMs := next.timestampMs - previous.timestampMs
          if spanMs ≤ 0 then none
          else if maxInterpolationGapMs < spanMs then none
          else
            let spanViews := next.views - previous.views
            if spanViews < 0 then none
            else
              some ((previous.views : ℚ) +
                (spanViews : ℚ) * (((targetTimestampMs - previous.timestampMs : Int) : ℚ) /
                  ((spanMs : Int) : ℚ)))
        | _, _ => none
  | _, _ => none

/-- The derived load of the UTC day with index `dayIdx` (days since the
epoch): the difference of the boundary evaluations at the surrounding
midnights, rounded, `none` when a boundary is undefined or the difference
is negative.  This is the body of the `aggregateLauncherLoads` loop for
one day, used to state its specification. -/
def dailyLoadValue (points : List LauncherPoint) (dayIdx : Int) : Option Int :=
  match interpolateLauncherViewsAt points (dayIdx * msPerDay),
      interpolateLauncherViewsAt points ((dayIdx + 1) * msPerDay) with
  | some startViews, some endViews =>
    if 0 ≤ endViews - startViews then some (round (endViews - startViews)) else none
  | _, _ => none

/-- The `while (dayStartMs + msPerDay <= lastTimestampMs)` loop of
`aggregateLauncherLoads` (lines 240-257), with dates represented by their
UTC day index (`formatUtcDate` renders exactly the UTC day of
`dayStartMs`, so the day index is a faithful key model). -/
def launcherLoadsLoopD (points : List LauncherPoint) (lastTs : Int) :
    List (Int × Option Int) → Int → Nat → List (Int × Option Int)
  | acc, _, 0 => acc
  | acc, dayStartMs, fuel + 1 =>
    if dayStartMs + msPerDay ≤ lastTs then
      let date := dayStartMs / msPerDay
      let dayEndMs := dayStartMs + msPerDay
      let entry : Option Int :=
        match interpolateLauncherViewsAt points dayStartMs,
            interpolateLauncherViewsAt points dayEndMs with
        | some startViews, some endViews =>
          if 0 ≤ endViews - startViews then some (round (endViews - startViews)) else none
        | _, _ => none
      launcherLoadsLoopD points lastTs (mapSet acc date entry) dayEndMs fuel
    else acc

/-- `aggregateLauncherLoads` over already-normalized points, with day-index
keys (lines 223-259 after the `normalizeLauncherPoints` call). -/
def aggregateLauncherLoadsD (points : List LauncherPoint) : List (Int × Option Int) :=
  if points.length < 2 then []
  else
    match points.head?, points.getLast? with
    | some _, some last =>
      launcherLoadsLoopD points last.timestampMs [] launcherMinDateMs
        ((last.timestampMs - launcherMinDateMs).toNat + 1)
    | _, _ => []

/-- The same loop with the string date keys produced by `formatUtcDate`,
as used by the end-to-end pipeline model. -/
def launcherLoadsLoopS (points : List LauncherPoint) (lastTs : Int) :
    List (String × Option Int) → Int → Nat → List (String × Option Int)
  | acc, _, 0 => acc
  | acc, dayStartMs, fuel + 1 =>
    if dayStartMs + msPerDay ≤ lastTs then
      let date := formatUtcDate dayStartMs
      let dayEndMs := dayStartMs + msPerDay
      let entry : Option Int :=
        match interpolateLauncherViewsAt points dayStartMs,
            interpolateLauncherViewsAt points dayEndMs with
        | some startViews, some endViews =>
          if 0 ≤ endViews - startViews then some (round (endViews - startViews)) else none
        | _, _ => none
      launcherLoadsLoopS points lastTs (mapSet acc date entry) dayEndMs fuel
    else acc

/-- `aggregateLauncherLoads` (lines 223-260), from raw launcher rows. -/
def aggregateLauncherLoads (rows : List LauncherRow) : List (String × Option Int) :=
  let points := normalizeLauncherPoints rows
  if points.length < 2 then []
  else
    match points.head?, points.getLast? with
    | some _, some last =>
      launcherLoadsLoopS points last.timestampMs [] launcherMinDateMs
        ((last.timestampMs - launcherMinDateMs).toNat + 1)
    | _, _ => []

/-! ## Daily merge and compact codec (`aggregate.ts` lines 262-297) -/

/-- `mergeDaily` (lines 262-283): the union of the three key sets (a
JavaScript `Set`, here `dedup` — after the ascending sort only the set
matters), sorted ascending (`localeCompare` on these ASCII date keys is
the lexicographic character order), one `DailyPoint` per date with `null`
for every field lacking a contribution. -/
def mergeDates (realmeyeDaily realmstockDaily : List (String × Int))
    (launcherDailyLoads : List (String × Option Int)) : List String :=
  (mapKeys realmeyeDaily ++ mapKeys realmstockDaily ++ mapKeys launcherDailyLoads).dedup

def mergeDaily (realmeyeDaily realmstockDaily : List (String × Int))
    (launcherDailyLoads : List (String × Option Int)) : List DailyPoint :=
  ((mergeDates realmeyeDaily realmstockDaily launcherDailyLoads).insertionSort
      (fun a b => a.data ≤ b.data)).map (fun date =>
    { date := date
      realmeye_max := realmeyeDaily.lookup date
      realmstock_max := realmstockDaily.lookup date
      launcher_loads := (launcherDailyLoads.lookup date).getD none })

/-- `compactDate` (line 285): remove every hyphen from the date string. -/
def compactDate (date : String) : String := ⟨date.data.filter (fun c => c != '-')⟩

/-- `toCompactDaily` (lines 289-297): the columnar encoding. -/
def toCompactDaily (points : List DailyPoint) (updatedAt : String) : CompactDaily :=
  { u := updatedAt
    d := points.map (fun p => compactDate p.date)
    a := points.map (fun p => p.realmeye_max)
    c := points.map (fun p => p.realmstock_max)
    f := points.map (fun p => p.launcher_loads) }

/-- Re-insert the hyphens of an 8-character compact date. -/
def expandCompactDate (s : String) : String :=
  ⟨s.data.take 4 ++ '-' :: ((s.data.drop 4).take 2 ++ '-' :: s.data.drop 6)⟩

/-- Columnwise reconstruction worker for the decoder. -/
def decodeColumns : List String → List (Option Int) → List (Option Int) →
    List (Option Int) → List DailyPoint
  | dd :: ds, av :: avs, cv :: cvs, fv :: fvs =>
    ⟨expandCompactDate dd, av, cv, fv⟩ :: decodeColumns ds avs cvs fvs
  | _, _, _, _ => []

/-- Modelled from the spec: the decoder `decodeDailyData`
(`src/utils/decodeDailyData`, referenced from `src/hooks/useDailyData.ts`)
is not among the provided sources.  Spec §4.4: "Decode: the exact inverse —
reconstruct the ordered `DailyPoint` sequence from the columnar arrays,
preserving `null` and date ordering." -/
def decodeDailyData (cd : CompactDaily) : List DailyPoint :=
  decodeColumns cd.d cd.a cd.c cd.f

/-- The `run` pipeline (lines 299-320) as a function of the effective raw
file contents (`none` models a missing file) and of the wall-clock reading
`new Date().toISOString()` taken at line 310.  File-system access and the
realmeye fallback-path selection live outside the core: two runs over
byte-identical raw inputs feed this function the same three contents. -/
def runModel (realmeyeContent realmstockContent launcherContent : Option String)
    (nowIso : String) : CompactDaily :=
  toCompactDaily
    (mergeDaily
      (aggregateMaxByDate (parseCsvRows realmeyeContent))
      (aggregateMaxByDate (parseCsvRows realmstockContent))
      (aggregateLauncherLoads (parseLauncherRows launcherContent)))
    nowIso

/-! ## Stats and table metrics engine (`metrics.ts`, lines 99-217 of the
current variant) -/

/-- The backward scan of `latestValue`, by the number of indices still to
visit: `latestValueAux points (k+1)` inspects index `k` first. -/
def latestValueAux (points : List DailyPoint) : Nat → Option Int
  | 0 => none
  | k + 1 =>
    match points[k]? with
    | some p =>
      match p.realmeye_max with
      | some v => some v
      | none => latestValueAux points k
    | none => latestValueAux points k

/-- `latestValue` (lines 101-109). -/
def latestValue (points : List DailyPoint) : Option Int :=
  latestValueAux points points.length

/-- The `for (const point of points)` accumulation of `buildStats`
(lines 134-146): the peak updates only on strict `>`, the low only on
strict `<`. -/
def statsLoop : List DailyPoint → StatsEntry → StatsEntry → StatsEntry × StatsEntry
  | [], peak, low => (peak, low)
  | p :: rest, peak, low =>
    match p.realmeye_max with
    | none => statsLoop rest peak low
    | some v =>
      let peak2 :=
        match peak.value with
        | none => StatsEntry.mk (some v) (some p.date)
        | some pv => if pv < v then StatsEntry.mk (some v) (some p.date) else peak
      let low2 :=
        match low.value with
        | none => StatsEntry.mk (some v) (some p.date)
        | some lv => if v < lv then StatsEntry.mk (some v) (some p.date) else low
      statsLoop rest peak2 low2

/-- `resolveFallbackLastUpdatedAt` (lines 111-119). -/
def resolveFallbackLastUpdatedAt (points : List DailyPoint) : Option String :=
  match points.getLast? with
  | none => none
  | some p => (dateToDays p.date).map (fun dd => toIsoString (dd * msPerDay))

/-- `buildStats` (lines 121-154). -/
def buildStats (points : List DailyPoint) (lastUpdatedAt : Option String) : StatsSummary :=
  let pair := statsLoop points ⟨none, none⟩ ⟨none, none⟩
  { currentRealmeye := latestValue points
    allTimePeak := pair.1
    allTimeLow := pair.2
    lastUpdatedAt :=
      match lastUpdatedAt with
      | some t => some t
      | none => resolveFallbackLastUpdatedAt points }

/-- The delta computed from the current point and the nearest prior point
with a value (`computeDelta` lines 183-203): parse both midnights, take the
whole-day gap `Math.round((currentDateMs - previousDateMs) / dayMs)`, and
apply the gap rules. -/
def deltaOfPair (currentPoint previousPoint : DailyPoint)
    (currentValue previousValue : Int) : Option Int :=
  match dateStartMsOpt currentPoint.date, dateStartMsOpt previousPoint.date with
  | some currentDateMs, some previousDateMs =>
    let dayGap := round (((currentDateMs - previousDateMs : Int) : ℚ) / (msPerDay : ℚ))
    if dayGap ≤ 0 then none
    else if dayGap = 1 then some (currentValue - previousValue)
    else if maxDeltaGapDays < dayGap then none
    else some (round (((currentValue - previousValue : Int) : ℚ) / ((dayGap : Int) : ℚ)))
  | _, _ => none

/-- The `while (previousIndex >= 0)` scan of `computeDelta`
(lines 170-204): skip prior days with a `null` value; at the nearest day
with a value, apply the gap rules to the pair.  The fuel only bounds the
iteration count. -/
def deltaScan (points : List DailyPoint) (pick : DailyPoint → Option Int)
    (currentPoint : DailyPoint) (currentValue : Int) : Int → Nat → Option Int
  | _, 0 => none
  | previousIndex, fuel + 1 =>
    if previousIndex < 0 then none
    else
      match jsGet points previousIndex with
      | none => none
      | some previousPoint =>
        match pick previousPoint with
        | none => deltaScan points pick currentPoint currentValue (previousIndex - 1) fuel
        | some previousValue =>
          deltaOfPair currentPoint previousPoint currentValue previousValue

/-- `computeDelta` (lines 159-207). -/
def computeDelta (points : List DailyPoint) (index : Nat)
    (pick : DailyPoint → Option Int) : Option Int :=
  match points[index]? with
  | none => none
  | some currentPoint =>
    match pick currentPoint with
    | none => none
    | some currentValue =>
      deltaScan points pick currentPoint currentValue ((index : Int) - 1) (index + 1)

/-- The `points.map((point, index) => ...)` of `buildTableRows`
(lines 209-216), with the running index made explicit. -/
def buildTableRowsAux (points : List DailyPoint) : List DailyPoint → Nat → List TableRow
  | [], _ => []
  | p :: rest, index =>
    { date := p.date
      realmeye_max := p.realmeye_max
      realmstock_max := p.realmstock_max
      launcher_loads := p.launcher_loads
      realmeye_delta := computeDelta points index (fun q => q.realmeye_max)
      realmstock_delta := computeDelta points index (fun q => q.realmstock_max)
      launcher_delta := computeDelta points index (fun q => q.launcher_loads) } ::
      buildTableRowsAux points rest (index + 1)

/-- `buildTableRows` (lines 156-217). -/
def buildTableRows (points : List DailyPoint) : List TableRow :=
  buildTableRowsAux points points 0

/-! ## Specification lemmas for the daily max aggregator -/

theorem optMax_none_right (a : Option Int) : optMax a none = a := by
  cases a <;> rfl

theorem optMax_none_left (b : Option Int) : optMax none b = b := by
  cases b <;> rfl

theorem lookup_maxByDateStep_eq (acc : List (String × Int)) (r : Row) :
    (maxByDateStep acc r).lookup r.date = optMax (acc.lookup r.date) (some r.players) := by
  unfold maxByDateStep
  cases hl : acc.lookup r.date with
  | none =>
    simp only [optMax]
    exact lookup_mapSet_self acc r.date r.players
  | some existing =>
    simp only [optMax]
    by_cases hlt : existing < r.players
    · rw [if_pos hlt, lookup_mapSet_self acc r.date r.players, max_eq_right (le_of_lt hlt)]
    · rw [if_neg hlt, hl, max_eq_left (le_of_not_lt hlt)]

theorem lookup_maxByDateStep_ne (acc : List (String × Int)) (r : Row) (d : String)
    (h : (d == r.date) = false) :
    (maxByDateStep acc r).lookup d = acc.lookup d := by
  unfold maxByDateStep
  split
  · exact lookup_mapSet_ne acc r.date d r.players h
  · split
    · exact lookup_mapSet_ne acc r.date d r.players h
    · rfl

theorem foldl_maxByDateStep_lookup (rows : List Row) (acc : List (String × Int)) (d : String) :
    (rows.foldl maxByDateStep acc).lookup d =
      optMax (acc.lookup d)
        (listMaxO ((rows.filter (fun r => r.date == d)).map (fun r => r.players))) := by
  induction rows generalizing acc with
  | nil => simp [optMax_none_right, List.filter, listMaxO]
  | cons r rest ih =>
    rw [List.foldl_cons, ih (maxByDateStep acc r)]
    by_cases hr : (r.date == d) = true
    · have hrd : r.date = d := by simpa using hr
      rw [List.filter_cons_of_pos (by simpa using hr), List.map_cons, listMaxO_cons,
        ← optMax_assoc, ← hrd, lookup_maxByDateStep_eq acc r]
    · have hrb : (r.date == d) = false := by simpa using hr
      have hdb : (d == r.date) = false := by
        simp only [beq_eq_false_iff_ne, ne_eq] at hrb ⊢
        exact fun hdr => hrb hdr.symm
      rw [List.filter_cons_of_neg (by simpa using hr), lookup_maxByDateStep_ne acc r d hdb]

/-- C9: for every list of accepted point-in-time samples and every UTC
calendar day, the daily-max aggregation assigns that day the maximum of
all accepted sample values whose date equals that day, and a day with no
samples has no entry at all in the result. -/
theorem aggregateMaxByDate_daily_max_law (rows : List Row) (d : String) :
    (aggregateMaxByDate rows).lookup d =
      listMaxO ((rows.filter (fun r => r.date == d)).map (fun r => r.players)) := by
  unfold aggregateMaxByDate
  rw [foldl_maxByDateStep_lookup rows [] d]
  rw [show (List.lookup d ([] : List (String × Int))) = none from rfl, optMax_none_left]

/-! ## Specification lemmas for the daily merge -/

instance : IsTotal String (fun a b => a.data ≤ b.data) :=
  ⟨fun a b => le_total a.data b.data⟩

instance : IsTrans String (fun a b => a.data ≤ b.data) :=
  ⟨fun _ _ _ h1 h2 => le_trans h1 h2⟩

theorem string_eq_of_data_eq {a b : String} (h : a.data = b.data) : a = b := by
  cases a
  cases b
  exact congrArg String.mk h

/-- Full behaviour of the merge: output dates pairwise strictly increasing,
membership is the union of the source key sets, and each field is the
source lookup. -/
theorem mergeDaily_cases (realmeyeDaily realmstockDaily : List (String × Int))
    (launcherDailyLoads : List (String × Option Int)) :
    (mergeDaily realmeyeDaily realmstockDaily launcherDailyLoads).Pairwise
        (fun p q => p.date.data < q.date.data) ∧
    (∀ d : String,
      (∃ p ∈ mergeDaily realmeyeDaily realmstockDaily launcherDailyLoads, p.date = d) ↔
        (d ∈ mapKeys realmeyeDaily ∨ d ∈ mapKeys realmstockDaily ∨
          d ∈ mapKeys launcherDailyLoads)) ∧
    (∀ p ∈ mergeDaily realmeyeDaily realmstockDaily launcherDailyLoads,
      p.realmeye_max = realmeyeDaily.lookup p.date ∧
      p.realmstock_max = realmstockDaily.lookup p.date ∧
      p.launcher_loads = (launcherDailyLoads.lookup p.date).getD none) := by
  refine ⟨?_, ?_, ?_⟩
  · rw [mergeDaily, List.pairwise_map]
    have hsort :
        List.Sorted (fun a b : String => a.data ≤ b.data)
          ((mergeDates realmeyeDaily realmstockDaily launcherDailyLoads).insertionSort
            (fun a b => a.data ≤ b.data)) :=
      List.sorted_insertionSort _ _
    have hnodup :
        ((mergeDates realmeyeDaily realmstockDaily launcherDailyLoads).insertionSort
            (fun a b => a.data ≤ b.data)).Nodup :=
      (List.perm_insertionSort _ _).nodup_iff.mpr (List.nodup_dedup _)
    have hpair := List.Pairwise.and hsort hnodup
    refine hpair.imp ?_
    intro a b hab
    exact lt_of_le_of_ne hab.1 (fun hdata => hab.2 (string_eq_of_data_eq hdata))
  · intro d
    rw [mergeDaily]
    constructor
    · rintro ⟨p, hp, rfl⟩
      obtain ⟨date, hdate, rfl⟩ := List.mem_map.mp hp
      have hmem : date ∈ mergeDates realmeyeDaily realmstockDaily launcherDailyLoads :=
        (List.perm_insertionSort _ _).mem_iff.mp hdate
      rw [mergeDates, List.mem_dedup, List.mem_append, List.mem_append] at hmem
      tauto
    · intro hmem
      refine ⟨_, List.mem_map.mpr ⟨d, ?_, rfl⟩, rfl⟩
      apply (List.perm_insertionSort _ _).mem_iff.mpr
      rw [mergeDates, List.mem_dedup, List.mem_append, List.mem_append]
      tauto
  · intro p hp
    rw [mergeDaily] at hp
    obtain ⟨date, _, rfl⟩ := List.mem_map.mp hp
    exact ⟨rfl, rfl, rfl⟩

/-! ## Specification lemmas for the compact codec -/

theorem digit_ne_hyphen {c : Char} (h : c.isDigit = true) : (c != '-') = true := by
  cases heq : c == '-' with
  | false => simp [bne, heq]
  | true =>
    have hc : c = '-' := by simpa using heq
    rw [hc] at h
    exact absurd h (by decide)

theorem expand_compact_of_format (s : String) (h : isDateFormat s = true) :
    expandCompactDate (compactDate s) = s := by
  cases s with
  | mk data =>
    unfold isDateFormat at h
    split at h
    · rename_i y1 y2 y3 y4 h1 m1 m2 h2 d1 d2 heq
      subst heq
      simp only [Bool.and_eq_true, beq_iff_eq] at h
      obtain ⟨⟨⟨⟨⟨⟨⟨⟨⟨hy1, hy2⟩, hy3⟩, hy4⟩, hh1⟩, hm1⟩, hm2⟩, hh2⟩, hd1⟩, hd2⟩ := h
      subst hh1
      subst hh2
      have hfilter :
          [y1, y2, y3, y4, '-', m1, m2, '-', d1, d2].filter (fun c => c != '-') =
            [y1, y2, y3, y4, m1, m2, d1, d2] := by
        simp [List.filter, digit_ne_hyphen hy1, digit_ne_hyphen hy2, digit_ne_hyphen hy3,
          digit_ne_hyphen hy4, digit_ne_hyphen hm1, digit_ne_hyphen hm2,
          digit_ne_hyphen hd1, digit_ne_hyphen hd2]
      show expandCompactDate ⟨[y1, y2, y3, y4, '-', m1, m2, '-', d1, d2].filter
        (fun c => c != '-')⟩ = _
      rw [hfilter]
      rfl
    · exact absurd h (by decide)

/-- C3: decoding the compact columnar encoding of any valid `DailyPoint`
sequence (well-formed, unique, strictly increasing dates; all fields
integer-or-null by type) yields the original sequence exactly:
`decode(encode(points)) = points`, preserving nulls, field assignment and
date order, including all-null fields.  The decoder is modelled from the
spec, since `src/utils/decodeDailyData` is not among the provided
sources. -/
theorem decode_encode_roundtrip (points : List DailyPoint) (updatedAt : String)
    (hfmt : ∀ p ∈ points, isDateFormat p.date = true)
    (hinc : points.Pairwise (fun p q => p.date.data < q.date.data)) :
    decodeDailyData (toCompactDaily points updatedAt) = points := by
  clear hinc
  induction points with
  | nil => rfl
  | cons p rest ih =>
    have hp : isDateFormat p.date = true := hfmt p (List.mem_cons_self p rest)
    have hrest : ∀ q ∈ rest, isDateFormat q.date = true :=
      fun q hq => hfmt q (List.mem_cons_of_mem p hq)
    show DailyPoint.mk (expandCompactDate (compactDate p.date)) p.realmeye_max
        p.realmstock_max p.launcher_loads ::
        decodeColumns (rest.map (fun q => compactDate q.date))
          (rest.map (fun q => q.realmeye_max)) (rest.map (fun q => q.realmstock_max))
          (rest.map (fun q => q.launcher_loads)) = p :: rest
    rw [expand_compact_of_format p.date hp]
    exact congrArg (fun l => DailyPoint.mk p.date p.realmeye_max p.realmstock_max
      p.launcher_loads :: l) (ih hrest)

/-- Witness for C3 at a concrete one-point dataset. -/
theorem decode_encode_roundtrip_witness :
    decodeDailyData (toCompactDaily [DailyPoint.mk "2024-07-03" (some 5) none none] "now") =
      [DailyPoint.mk "2024-07-03" (some 5) none none] :=
  decode_encode_roundtrip [DailyPoint.mk "2024-07-03" (some 5) none none] "now"
    (by decide) (by decide)

/-! ## Determinism of the pipeline (claim C4) -/

/-- C4 counterexample: two runs over byte-identical raw inputs (here: all
three source files absent, the same in both runs) taken at different
wall-clock instants produce different compact outputs — the freshness
field `u` records each run's clock reading. -/
theorem runModel_not_byte_identical :
    runModel none none none "2025-01-01T00:00:00.000Z" ≠
      runModel none none none "2025-01-01T00:00:01.000Z" := by
  decide

/-- C4 (amended): over byte-identical raw inputs the pipeline is
deterministic in every data field — the date column `d` and the three
value columns `a`, `c`, `f` are identical between any two runs — and the
whole output, `u` included, is byte-identical exactly when the two runs
read the same clock instant. -/
theorem runModel_deterministic_up_to_timestamp
    (realmeyeContent realmstockContent launcherContent : Option String) (t1 t2 : String) :
    ((runModel realmeyeContent realmstockContent launcherContent t1).d =
        (runModel realmeyeContent realmstockContent launcherContent t2).d ∧
      (runModel realmeyeContent realmstockContent launcherContent t1).a =
        (runModel realmeyeContent realmstockContent launcherContent t2).a ∧
      (runModel realmeyeContent realmstockContent launcherContent t1).c =
        (runModel realmeyeContent realmstockContent launcherContent t2).c ∧
      (runModel realmeyeContent realmstockContent launcherContent t1).f =
        (runModel realmeyeContent realmstockContent launcherContent t2).f) ∧
    (t1 = t2 →
      runModel realmeyeContent realmstockContent launcherContent t1 =
        runModel realmeyeContent realmstockContent launcherContent t2) :=
  ⟨⟨rfl, rfl, rfl, rfl⟩, fun h => by rw [h]⟩

/-- Witness for the amended C4 at concrete inputs and equal clocks. -/
theorem runModel_deterministic_witness :
    runModel none none none "2025-01-01T00:00:00.000Z" =
      runModel none none none "2025-01-01T00:00:00.000Z" :=
  (runModel_deterministic_up_to_timestamp none none none
    "2025-01-01T00:00:00.000Z" "2025-01-01T00:00:00.000Z").2 rfl

/-! ## Acceptance characterization of the sample normalizer (claim C7) -/

/-- Field `i` of a CSV line as both parsers see it: `line.split(",", 3)`,
trimmed, with a missing column read as the empty string (both are falsy in
the JavaScript emptiness checks). -/
def csvField (line : String) (i : Nat) : String :=
  ((((jsSplit ',' line).take 3).map jsTrim)[i]?).getD ""

/-- The claim's reading of "the value field parses as a non-negative
integer": a plain base-10 numeral, hence in particular non-negative. -/
def isNonNegIntegerLiteral (s : String) : Bool :=
  !s.data.isEmpty && s.data.all Char.isDigit

/-- C7 counterexample: the claimed acceptance condition is violated by the
simple-source parser, which accepts the row
`"00:00:00,2024-01-01,-5"` even though its value field `"-5"` does not
parse as a non-negative integer (`parseCsvRows` has no sign check; only
`parseLauncherRows` rejects negative values). -/
theorem parseCsv_accepts_negative_value :
    ¬ (∀ line : String, (parseCsvLine line).isSome = true ↔
        (isDateFormat (csvField line 1) = true ∧
          isNonNegIntegerLiteral (csvField line 2) = true)) := by
  intro hall
  have h := (hall "00:00:00,2024-01-01,-5").mp (by decide)
  exact absurd h.2 (by decide)

/-- C7 (amended): a row is accepted by the simple-source parser iff its
second and third comma-fields (after trimming) are non-empty, the date
field matches `YYYY-MM-DD`, and the value field carries a leading
optional-sign base-10 numeral in the `parseInt` sense — any integer,
negatives included; the counter-source parser additionally requires a
non-empty clock field matching `HH:MM:SS` and a non-negative parsed
value. -/
theorem parse_acceptance_characterization (line : String) :
    ((parseCsvLine line).isSome = true ↔
      (csvField line 1 ≠ "" ∧ csvField line 2 ≠ "" ∧
        isDateFormat (csvField line 1) = true ∧
        (jsParseInt (csvField line 2)).isSome = true)) ∧
    ((parseLauncherLine line).isSome = true ↔
      (csvField line 0 ≠ "" ∧ csvField line 1 ≠ "" ∧ csvField line 2 ≠ "" ∧
        isTimeFormat (csvField line 0) = true ∧ isDateFormat (csvField line 1) = true ∧
        ∃ v, jsParseInt (csvField line 2) = some v ∧ 0 ≤ v)) := by
  constructor
  · show (parseCsvLine line).isSome = true ↔ _
    rw [parseCsvLine]
    simp only [csvField]
    by_cases hempty :
        ((((jsSplit ',' line).take 3).map jsTrim)[1]?).getD "" = "" ∨
          ((((jsSplit ',' line).take 3).map jsTrim)[2]?).getD "" = ""
    · rw [if_pos hempty]
      constructor
      · intro hfalse
        exact absurd hfalse (by decide)
      · rintro ⟨h1, h2, _⟩
        rcases hempty with he | he
        · exact absurd he h1
        · exact absurd he h2
    · rw [if_neg hempty]
      push_neg at hempty
      cases hv : jsParseInt ((((jsSplit ',' line).take 3).map jsTrim)[2]?.getD "") with
      | none =>
        constructor
        · intro hfalse
          exact Bool.noConfusion hfalse
        · rintro ⟨_, _, _, hsome⟩
          exact hsome
      | some players =>
        dsimp only
        by_cases hfmt : isDateFormat ((((jsSplit ',' line).take 3).map jsTrim)[1]?.getD "") = true
        · rw [if_pos hfmt]
          simp only [Option.isSome_some, true_iff]
          exact ⟨hempty.1, hempty.2, hfmt, trivial⟩
        · rw [if_neg hfmt]
          simp only [Option.isSome_none]
          constructor
          · intro hfalse
            exact absurd hfalse (by decide)
          · rintro ⟨_, _, hfmt2, _⟩
            exact absurd hfmt2 hfmt
  · show (parseLauncherLine line).isSome = true ↔ _
    rw [parseLauncherLine]
    simp only [csvField]
    by_cases hempty :
        ((((jsSplit ',' line).take 3).map jsTrim)[0]?).getD "" = "" ∨
          ((((jsSplit ',' line).take 3).map jsTrim)[1]?).getD "" = "" ∨
          ((((jsSplit ',' line).take 3).map jsTrim)[2]?).getD "" = ""
    · rw [if_pos hempty]
      constructor
      · intro hfalse
        exact absurd hfalse (by decide)
      · rintro ⟨h0, h1, h2, _⟩
        rcases hempty with he | he | he
        · exact absurd he h0
        · exact absurd he h1
        · exact absurd he h2
    · rw [if_neg hempty]
      push_neg at hempty
      by_cases hre :
          isTimeFormat ((((jsSplit ',' line).take 3).map jsTrim)[0]?.getD "") = true ∧
            isDateFormat ((((jsSplit ',' line).take 3).map jsTrim)[1]?.getD "") = true
      · rw [if_neg (not_not_intro hre)]
        cases hv : jsParseInt ((((jsSplit ',' line).take 3).map jsTrim)[2]?.getD "") with
        | none =>
          constructor
          · intro hfalse
            exact Bool.noConfusion hfalse
          · rintro ⟨_, _, _, _, _, v, hsome, _⟩
            exact Option.noConfusion hsome
        | some views =>
          dsimp only
          by_cases hneg : views < 0
          · rw [if_pos hneg]
            simp only [Option.isSome_none]
            constructor
            · intro hfalse
              exact absurd hfalse (by decide)
            · rintro ⟨_, _, _, _, _, v, hsome, hv0⟩
              cases hsome
              exact absurd hv0 (not_le.mpr hneg)
          · rw [if_neg hneg]
            simp only [Option.isSome_some, true_iff]
            exact ⟨hempty.1, hempty.2.1, hempty.2.2, hre.1, hre.2, views, rfl,
              le_of_not_lt hneg⟩
      · rw [if_pos hre]
        simp only [Option.isSome_none]
        constructor
        · intro hfalse
          exact absurd hfalse (by decide)
        · rintro ⟨_, _, _, ht, hd, _⟩
          exact absurd ⟨ht, hd⟩ hre

/-! ## Specification lemmas for the stats engine -/

/-- The minimum of a list of integers, `none` on the empty list. -/
def listMinO (l : List Int) : Option Int :=
  match l with
  | [] => none
  | x :: xs =>
    some (match listMinO xs with
          | none => x
          | some m => min x m)

theorem listMinO_cons (x : Int) (xs : List Int) :
    listMinO (x :: xs) = (match listMinO xs with
      | none => some x
      | some m => some (min x m)) := by
  cases h : listMinO xs <;> simp [listMinO, h]

theorem listMaxO_eq_none_iff (l : List Int) : listMaxO l = none ↔ l = [] := by
  cases l <;> simp [listMaxO]

theorem listMinO_eq_none_iff (l : List Int) : listMinO l = none ↔ l = [] := by
  cases l <;> simp [listMinO]

/-- The peak accumulation of `buildStats`, isolated. -/
def peakFold : List DailyPoint → StatsEntry → StatsEntry
  | [], peak => peak
  | p :: rest, peak =>
    match p.realmeye_max with
    | none => peakFold rest peak
    | some v =>
      peakFold rest
        (match peak.value with
         | none => StatsEntry.mk (some v) (some p.date)
         | some pv => if pv < v then StatsEntry.mk (some v) (some p.date) else peak)

/-- The low accumulation of `buildStats`, isolated. -/
def lowFold : List DailyPoint → StatsEntry → StatsEntry
  | [], low => low
  | p :: rest, low =>
    match p.realmeye_max with
    | none => lowFold rest low
    | some v =>
      lowFold rest
        (match low.value with
         | none => StatsEntry.mk (some v) (some p.date)
         | some lv => if v < lv then StatsEntry.mk (some v) (some p.date) else low)

theorem statsLoop_eq_folds (l : List DailyPoint) (peak low : StatsEntry) :
    statsLoop l peak low = (peakFold l peak, lowFold l low) := by
  induction l generalizing peak low with
  | nil => rfl
  | cons p rest ih =>
    cases hp : p.realmeye_max with
    | none => simp [statsLoop, peakFold, lowFold, hp, ih]
    | some v => simp [statsLoop, peakFold, lowFold, hp, ih]

theorem latestValueAux_append (xs : List DailyPoint) (x : DailyPoint) :
    ∀ n, n ≤ xs.length → latestValueAux (xs ++ [x]) n = latestValueAux xs n := by
  intro n
  induction n with
  | zero => intro _; rfl
  | succ k ih =>
    intro hk
    have hklt : k < xs.length := Nat.lt_of_succ_le hk
    have hget : (xs ++ [x])[k]? = xs[k]? := by
      rw [List.getElem?_append]
      exact if_pos hklt
    rw [latestValueAux, latestValueAux, hget]
    cases hp : xs[k]? with
    | none => exact ih (Nat.le_of_lt hklt)
    | some p =>
      dsimp only
      cases hpm : p.realmeye_max with
      | none => exact ih (Nat.le_of_lt hklt)
      | some v => rfl

theorem latestValue_eq_reverse_findSome (points : List DailyPoint) :
    latestValue points = points.reverse.findSome? (fun p => p.realmeye_max) := by
  induction points using List.reverseRecOn with
  | nil => rfl
  | append_singleton xs x ih =>
    rw [latestValue, List.length_append, List.reverse_append]
    simp only [List.length_cons, List.length_nil, List.reverse_cons, List.reverse_nil,
      List.nil_append, List.singleton_append, List.findSome?]
    have hx : (xs ++ [x])[xs.length]? = some x := by
      rw [List.getElem?_append_right (Nat.le_refl xs.length)]
      simp
    rw [latestValueAux, hx]
    dsimp only
    cases hv : x.realmeye_max with
    | some v => rfl
    | none =>
      rw [latestValueAux_append xs x xs.length (Nat.le_refl _)]
      exact ih

theorem peakFold_of_no_vals (l : List DailyPoint) :
    l.filterMap (fun p => p.realmeye_max) = [] → ∀ acc, peakFold l acc = acc := by
  induction l with
  | nil => intro _ acc; rfl
  | cons p rest ih =>
    intro h acc
    cases hp : p.realmeye_max with
    | none =>
      simp only [peakFold, hp]
      exact ih (by rwa [List.filterMap_cons_none hp] at h) acc
    | some v =>
      rw [List.filterMap_cons_some hp] at h
      exact absurd h (by simp)

theorem lowFold_of_no_vals (l : List DailyPoint) :
    l.filterMap (fun p => p.realmeye_max) = [] → ∀ acc, lowFold l acc = acc := by
  induction l with
  | nil => intro _ acc; rfl
  | cons p rest ih =>
    intro h acc
    cases hp : p.realmeye_max with
    | none =>
      simp only [lowFold, hp]
      exact ih (by rwa [List.filterMap_cons_none hp] at h) acc
    | some v =>
      rw [List.filterMap_cons_some hp] at h
      exact absurd h (by simp)

theorem peakFold_spec (l : List DailyPoint) :
    ∀ M : Int, listMaxO (l.filterMap (fun p => p.realmeye_max)) = some M →
      (∀ a : Int, ∀ dts : Option String, M ≤ a →
        peakFold l (StatsEntry.mk (some a) dts) = StatsEntry.mk (some a) dts) ∧
      (∀ a : Int, ∀ dts : Option String, a < M →
        peakFold l (StatsEntry.mk (some a) dts) =
          StatsEntry.mk (some M)
            ((l.find? (fun p => p.realmeye_max == some M)).map (fun p => p.date))) ∧
      peakFold l (StatsEntry.mk none none) =
        StatsEntry.mk (some M)
          ((l.find? (fun p => p.realmeye_max == some M)).map (fun p => p.date)) := by
  induction l with
  | nil =>
    intro M hM
    exact absurd hM (by simp [listMaxO])
  | cons p rest ih =>
    intro M hM
    cases hp : p.realmeye_max with
    | none =>
      rw [List.filterMap_cons_none hp] at hM
      have hfind : (p :: rest).find? (fun q => q.realmeye_max == some M) =
          rest.find? (fun q => q.realmeye_max == some M) :=
        List.find?_cons_of_neg _ (by simp [hp])
      obtain ⟨ih1, ih2, ih3⟩ := ih M hM
      refine ⟨?_, ?_, ?_⟩
      · intro a dts ha
        simp only [peakFold, hp]
        exact ih1 a dts ha
      · intro a dts ha
        simp only [peakFold, hp]
        rw [hfind]
        exact ih2 a dts ha
      · simp only [peakFold, hp]
        rw [hfind]
        exact ih3
    | some v =>
      rw [List.filterMap_cons_some hp, listMaxO_cons] at hM
      cases hrest : listMaxO (rest.filterMap (fun q => q.realmeye_max)) with
      | none =>
        rw [hrest] at hM
        have hMv : v = M := by simpa [optMax] using hM
        subst hMv
        have hrestnil : rest.filterMap (fun q => q.realmeye_max) = [] :=
          (listMaxO_eq_none_iff _).mp hrest
        have hfind : (p :: rest).find? (fun q => q.realmeye_max == some v) = some p :=
          List.find?_cons_of_pos _ (by simp [hp])
        refine ⟨?_, ?_, ?_⟩
        · intro a dts ha
          simp only [peakFold, hp]
          rw [if_neg (not_lt.mpr ha)]
          exact peakFold_of_no_vals rest hrestnil _
        · intro a dts ha
          simp only [peakFold, hp]
          rw [if_pos ha, peakFold_of_no_vals rest hrestnil _, hfind]
          rfl
        · simp only [peakFold, hp]
          rw [peakFold_of_no_vals rest hrestnil _, hfind]
          rfl
      | some mr =>
        rw [hrest] at hM
        have hMvm : max v mr = M := by simpa [optMax] using hM
        obtain ⟨ihr1, ihr2, ihr3⟩ := ih mr hrest
        by_cases hcmp : mr ≤ v
        · have hMv : v = M := by rw [← hMvm, max_eq_left hcmp]
          subst hMv
          have hfind : (p :: rest).find? (fun q => q.realmeye_max == some v) = some p :=
            List.find?_cons_of_pos _ (by simp [hp])
          refine ⟨?_, ?_, ?_⟩
          · intro a dts ha
            simp only [peakFold, hp]
            rw [if_neg (not_lt.mpr ha)]
            exact ihr1 a dts (le_trans hcmp ha)
          · intro a dts ha
            simp only [peakFold, hp]
            rw [if_pos ha, ihr1 v (some p.date) hcmp, hfind]
            rfl
          · simp only [peakFold, hp]
            rw [ihr1 v (some p.date) hcmp, hfind]
            rfl
        · have hvm : v < mr := not_le.mp hcmp
          have hMv : mr = M := by rw [← hMvm, max_eq_right (le_of_lt hvm)]
          subst hMv
          have hfind : (p :: rest).find? (fun q => q.realmeye_max == some mr) =
              rest.find? (fun q => q.realmeye_max == some mr) :=
            List.find?_cons_of_neg _ (by simp only [hp, beq_iff_eq, Option.some.injEq]; omega)
          refine ⟨?_, ?_, ?_⟩
          · intro a dts ha
            simp only [peakFold, hp]
            rw [if_neg (not_lt.mpr (le_trans (le_of_lt hvm) ha))]
            exact ihr1 a dts ha
          · intro a dts ha
            simp only [peakFold, hp]
            rw [hfind]
            by_cases hav : a < v
            · rw [if_pos hav]
              exact ihr2 v (some p.date) hvm
            · rw [if_neg hav]
              exact ihr2 a dts ha
          · simp only [peakFold, hp]
            rw [hfind]
            exact ihr2 v (some p.date) hvm

theorem lowFold_spec (l : List DailyPoint) :
    ∀ M : Int, listMinO (l.filterMap (fun p => p.realmeye_max)) = some M →
      (∀ a : Int, ∀ dts : Option String, a ≤ M →
        lowFold l (StatsEntry.mk (some a) dts) = StatsEntry.mk (some a) dts) ∧
      (∀ a : Int, ∀ dts : Option String, M < a →
        lowFold l (StatsEntry.mk (some a) dts) =
          StatsEntry.mk (some M)
            ((l.find? (fun p => p.realmeye_max == some M)).map (fun p => p.date))) ∧
      lowFold l (StatsEntry.mk none none) =
        StatsEntry.mk (some M)
          ((l.find? (fun p => p.realmeye_max == some M)).map (fun p => p.date)) := by
  induction l with
  | nil =>
    intro M hM
    exact absurd hM (by simp [listMinO])
  | cons p rest ih =>
    intro M hM
    cases hp : p.realmeye_max with
    | none =>
      rw [List.filterMap_cons_none hp] at hM
      have hfind : (p :: rest).find? (fun q => q.realmeye_max == some M) =
          rest.find? (fun q => q.realmeye_max == some M) :=
        List.find?_cons_of_neg _ (by simp [hp])
      obtain ⟨ih1, ih2, ih3⟩ := ih M hM
      refine ⟨?_, ?_, ?_⟩
      · intro a dts ha
        simp only [lowFold, hp]
        exact ih1 a dts ha
      · intro a dts ha
        simp only [lowFold, hp]
        rw [hfind]
        exact ih2 a dts ha
      · simp only [lowFold, hp]
        rw [hfind]
        exact ih3
    | some v =>
      rw [List.filterMap_cons_some hp, listMinO_cons] at hM
      cases hrest : listMinO (rest.filterMap (fun q => q.realmeye_max)) with
      | none =>
        rw [hrest] at hM
        have hMv : v = M := by simpa using hM
        subst hMv
        have hrestnil : rest.filterMap (fun q => q.realmeye_max) = [] :=
          (listMinO_eq_none_iff _).mp hrest
        have hfind : (p :: rest).find? (fun q => q.realmeye_max == some v) = some p :=
          List.find?_cons_of_pos _ (by simp [hp])
        refine ⟨?_, ?_, ?_⟩
        · intro a dts ha
          simp only [lowFold, hp]
          rw [if_neg (not_lt.mpr ha)]
          exact lowFold_of_no_vals rest hrestnil _
        · intro a dts ha
          simp only [lowFold, hp]
          rw [if_pos ha, lowFold_of_no_vals rest hrestnil _, hfind]
          rfl
        · simp only [lowFold, hp]
          rw [lowFold_of_no_vals rest hrestnil _, hfind]
          rfl
      | some mr =>
        rw [hrest] at hM
        have hMvm : min v mr = M := by simpa using hM
        obtain ⟨ihr1, ihr2, ihr3⟩ := ih mr hrest
        by_cases hcmp : v ≤ mr
        · have hMv : v = M := by rw [← hMvm, min_eq_left hcmp]
          subst hMv
          have hfind : (p :: rest).find? (fun q => q.realmeye_max == some v) = some p :=
            List.find?_cons_of_pos _ (by simp [hp])
          refine ⟨?_, ?_, ?_⟩
          · intro a dts ha
            simp only [lowFold, hp]
            rw [if_neg (not_lt.mpr ha)]
            exact ihr1 a dts (le_trans ha hcmp)
          · intro a dts ha
            simp only [lowFold, hp]
            rw [if_pos ha, ihr1 v (some p.date) hcmp, hfind]
            rfl
          · simp only [lowFold, hp]
            rw [ihr1 v (some p.date) hcmp, hfind]
            rfl
        · have hvm : mr < v := not_le.mp hcmp
          have hMv : mr = M := by rw [← hMvm, min_eq_right (le_of_lt hvm)]
          subst hMv
          have hfind : (p :: rest).find? (fun q => q.realmeye_max == some mr) =
              rest.find? (fun q => q.realmeye_max == some mr) :=
            List.find?_cons_of_neg _ (by simp only [hp, beq_iff_eq, Option.some.injEq]; omega)
          refine ⟨?_, ?_, ?_⟩
          · intro a dts ha
            simp only [lowFold, hp]
            rw [if_neg (not_lt.mpr (le_of_lt (lt_of_le_of_lt ha hvm)))]
            exact ihr1 a dts ha
          · intro a dts ha
            simp only [lowFold, hp]
            rw [hfind]
            by_cases hav : v < a
            · rw [if_pos hav]
              exact ihr2 v (some p.date) hvm
            · rw [if_neg hav]
              exact ihr2 a dts ha
          · simp only [lowFold, hp]
            rw [hfind]
            exact ihr2 v (some p.date) hvm

theorem buildStats_current (points : List DailyPoint) (lastUpdatedAt : Option String) :
    (buildStats points lastUpdatedAt).currentRealmeye = latestValue points := by
  simp [buildStats]

theorem buildStats_peak (points : List DailyPoint) (lastUpdatedAt : Option String) :
    (buildStats points lastUpdatedAt).allTimePeak = peakFold points (StatsEntry.mk none none) := by
  simp [buildStats, statsLoop_eq_folds]

theorem buildStats_low (points : List DailyPoint) (lastUpdatedAt : Option String) :
    (buildStats points lastUpdatedAt).allTimeLow = lowFold points (StatsEntry.mk none none) := by
  simp [buildStats, statsLoop_eq_folds]

/-- C6: the stats summary's current value is the first non-null primary
value scanning backward from the most recent day (`none` when none exists,
including the empty sequence, where the forward pass also leaves peak and
low at `none`); the all-time peak carries the maximum of the non-null
primary values and, because it updates only on strict `>`, the date of the
first day attaining that maximum (later exact ties never overwrite it);
symmetrically the all-time low carries the minimum and the date of its
first attainment. -/
theorem buildStats_spec (points : List DailyPoint) (lastUpdatedAt : Option String) :
    (buildStats points lastUpdatedAt).currentRealmeye =
        points.reverse.findSome? (fun p => p.realmeye_max) ∧
    (points.filterMap (fun p => p.realmeye_max) = [] →
      (buildStats points lastUpdatedAt).allTimePeak = StatsEntry.mk none none ∧
      (buildStats points lastUpdatedAt).allTimeLow = StatsEntry.mk none none) ∧
    (∀ M : Int, listMaxO (points.filterMap (fun p => p.realmeye_max)) = some M →
      (buildStats points lastUpdatedAt).allTimePeak =
        StatsEntry.mk (some M)
          ((points.find? (fun p => p.realmeye_max == some M)).map (fun p => p.date))) ∧
    (∀ m : Int, listMinO (points.filterMap (fun p => p.realmeye_max)) = some m →
      (buildStats points lastUpdatedAt).allTimeLow =
        StatsEntry.mk (some m)
          ((points.find? (fun p => p.realmeye_max == some m)).map (fun p => p.date))) := by
  refine ⟨?_, ?_, ?_, ?_⟩
  · rw [buildStats_current, latestValue_eq_reverse_findSome]
  · intro h
    rw [buildStats_peak, buildStats_low]
    exact ⟨peakFold_of_no_vals points h _, lowFold_of_no_vals points h _⟩
  · intro M hM
    rw [buildStats_peak]
    exact (peakFold_spec points M hM).2.2
  · intro m hm
    rw [buildStats_low]
    exact (lowFold_spec points m hm).2.2

/-- The repository's own metrics test sample. -/
def statsSample : List DailyPoint :=
  [DailyPoint.mk "2026-01-01" (some 100) (some 20) none,
   DailyPoint.mk "2026-01-02" (some 130) (some 22) (some 1000),
   DailyPoint.mk "2026-01-03" (some 110) none (some 1200)]

/-- Witness for C6 on the repository's metrics test sample: current 110,
peak 130 on 2026-01-02, low 100 on 2026-01-01. -/
theorem buildStats_spec_witness :
    (buildStats statsSample none).currentRealmeye = some 110 ∧
    (buildStats statsSample none).allTimePeak = StatsEntry.mk (some 130) (some "2026-01-02") ∧
    (buildStats statsSample none).allTimeLow = StatsEntry.mk (some 100) (some "2026-01-01") := by
  have h := buildStats_spec statsSample none
  refine ⟨?_, ?_, ?_⟩
  · rw [h.1]
    decide
  · rw [h.2.2.1 130 (by decide)]
    decide
  · rw [h.2.2.2 100 (by decide)]
    decide

/-! ## Specification lemmas for the gap-aware deltas -/

theorem round_day_ratio (dc dp : Int) :
    round (((dc * msPerDay - dp * msPerDay : Int) : ℚ) / (msPerDay : ℚ)) = dc - dp := by
  have hms : (msPerDay : ℚ) ≠ 0 := by norm_num [msPerDay]
  have hq : ((dc * msPerDay - dp * msPerDay : Int) : ℚ) / (msPerDay : ℚ) =
      ((dc - dp : Int) : ℚ) := by
    push_cast
    field_simp
    ring
  rw [hq, round_intCast]

theorem deltaScan_all_none (points : List DailyPoint) (pick : DailyPoint → Option Int)
    (cp : DailyPoint) (cv : Int) :
    ∀ (fuel : Nat) (pi : Int),
      (∀ k : Nat, (k : Int) ≤ pi → ∀ q, points[k]? = some q → pick q = none) →
      deltaScan points pick cp cv pi fuel = none := by
  intro fuel
  induction fuel with
  | zero => intro pi _; rfl
  | succ f ih =>
    intro pi hnone
    rw [deltaScan]
    by_cases hpi : pi < 0
    · rw [if_pos hpi]
    · rw [if_neg hpi, jsGet, if_pos (not_lt.mp hpi)]
      cases hq : points[pi.toNat]? with
      | none => rfl
      | some q =>
        dsimp only
        rw [hnone pi.toNat (by omega) q hq]
        exact ih (pi - 1) (fun k hk q2 hq2 => hnone k (by omega) q2 hq2)

theorem deltaScan_found (points : List DailyPoint) (pick : DailyPoint → Option Int)
    (cp : DailyPoint) (cv : Int) (j : Int) (q : DailyPoint) (w : Int)
    (hj0 : 0 ≤ j) (hqj : points[j.toNat]? = some q) (hw : pick q = some w) :
    ∀ (fuel : Nat) (pi : Int), j ≤ pi → pi < (points.length : Int) →
      (∀ k : Nat, j < (k : Int) → (k : Int) ≤ pi → ∀ r, points[k]? = some r → pick r = none) →
      (pi - j + 1).toNat ≤ fuel →
      deltaScan points pick cp cv pi fuel = deltaOfPair cp q cv w := by
  intro fuel
  induction fuel with
  | zero =>
    intro pi hjpi _ _ hfuel
    exact absurd hfuel (by omega)
  | succ f ih =>
    intro pi hjpi hlen hbetween hfuel
    rw [deltaScan, if_neg (by omega : ¬ pi < 0), jsGet, if_pos (by omega : (0:Int) ≤ pi)]
    by_cases hpij : pi = j
    · subst hpij
      rw [hqj]
      dsimp only
      rw [hw]
    · have hjlt : j < pi := lt_of_le_of_ne hjpi (Ne.symm hpij)
      cases hr : points[pi.toNat]? with
      | none =>
        exfalso
        have hlt : pi.toNat < points.length := by omega
        rw [List.getElem?_eq_getElem hlt] at hr
        exact Option.noConfusion hr
      | some r =>
        dsimp only
        rw [hbetween pi.toNat (by omega) (by omega) r hr]
        exact ih (pi - 1) (by omega) (by omega)
          (fun k h1 h2 r2 hr2 => hbetween k h1 (by omega) r2 hr2) (by omega)

theorem buildTableRowsAux_getElem (points : List DailyPoint) :
    ∀ (l : List DailyPoint) (i0 k : Nat),
      (buildTableRowsAux points l i0)[k]? = (l[k]?).map (fun p =>
        TableRow.mk p.date p.realmeye_max p.realmstock_max p.launcher_loads
          (computeDelta points (i0 + k) (fun q => q.realmeye_max))
          (computeDelta points (i0 + k) (fun q => q.realmstock_max))
          (computeDelta points (i0 + k) (fun q => q.launcher_loads))) := by
  intro l
  induction l with
  | nil => intro i0 k; simp [buildTableRowsAux]
  | cons p rest ih =>
    intro i0 k
    cases k with
    | zero => simp [buildTableRowsAux]
    | succ k2 =>
      rw [buildTableRowsAux]
      rw [List.getElem?_cons_succ, List.getElem?_cons_succ, ih (i0 + 1) k2]
      have : i0 + 1 + k2 = i0 + (k2 + 1) := by omega
      rw [this]

/-- C5: the gap-aware table delta, for every `DailyPoint` sequence, every
numeric field (abstracted as the `pick` projection, and tied to the three
concrete fields through `buildTableRows` in the last part) and every index:
`none` outside the sequence or when the current value is `null`; `none`
when no prior day has a value; otherwise, with `j` the nearest prior index
holding a value and `g = date[i] - date[j]` in whole days, the delta is
`v - value[j]` when `g = 1`, `round((v - value[j]) / g)` when `1 < g ≤ 7`,
and `none` when `g ≤ 0` or `g > 7`. -/
theorem computeDelta_spec (points : List DailyPoint) (pick : DailyPoint → Option Int)
    (index : Nat) :
    (points[index]? = none → computeDelta points index pick = none) ∧
    (∀ p, points[index]? = some p → pick p = none → computeDelta points index pick = none) ∧
    (∀ p v, points[index]? = some p → pick p = some v →
      ((∀ k : Nat, k < index → ∀ q, points[k]? = some q → pick q = none) →
        computeDelta points index pick = none) ∧
      (∀ j : Nat, j < index → ∀ q w, points[j]? = some q → pick q = some w →
        (∀ k : Nat, j < k → k < index → ∀ r, points[k]? = some r → pick r = none) →
        ∀ dc dp : Int, dateToDays p.date = some dc → dateToDays q.date = some dp →
          computeDelta points index pick =
            (if dc - dp ≤ 0 then none
             else if dc - dp = 1 then some (v - w)
             else if maxDeltaGapDays < dc - dp then none
             else some (round (((v - w : Int) : ℚ) / ((dc - dp : Int) : ℚ)))))) ∧
    (∀ i : Nat, ∀ r, (buildTableRows points)[i]? = some r →
      r.realmeye_delta = computeDelta points i (fun q => q.realmeye_max) ∧
      r.realmstock_delta = computeDelta points i (fun q => q.realmstock_max) ∧
      r.launcher_delta = computeDelta points i (fun q => q.launcher_loads)) := by
  refine ⟨?_, ?_, ?_, ?_⟩
  · intro h
    unfold computeDelta
    rw [h]
  · intro p hp hnone
    unfold computeDelta
    rw [hp]
    dsimp only
    rw [hnone]
  · intro p v hp hv
    have hidx : index < points.length := by
      by_contra hcon
      rw [List.getElem?_eq_none (by omega)] at hp
      exact Option.noConfusion hp
    constructor
    · intro hall
      unfold computeDelta
      rw [hp]
      dsimp only
      rw [hv]
      dsimp only
      exact deltaScan_all_none points pick p v (index + 1) ((index : Int) - 1)
        (fun k hk q hq => hall k (by omega) q hq)
    · intro j hj q w hjq hw hbet dc dp hdc hdp
      unfold computeDelta
      rw [hp]
      dsimp only
      rw [hv]
      dsimp only
      have hscan := deltaScan_found points pick p v (j : Int) q w (by omega)
        (by simpa using hjq) hw (index + 1) ((index : Int) - 1) (by omega) (by omega)
        (fun k h1 h2 r hr => hbet k (by omega) (by omega) r hr) (by omega)
      rw [hscan]
      unfold deltaOfPair
      simp only [dateStartMsOpt, hdc, hdp, Option.map_some']
      rw [round_day_ratio dc dp]
  · intro i r hr
    unfold buildTableRows at hr
    rw [buildTableRowsAux_getElem points points 0 i] at hr
    cases hpi : points[i]? with
    | none =>
      rw [hpi] at hr
      exact Option.noConfusion hr
    | some p =>
      rw [hpi, Option.map_some'] at hr
      injection hr with hr2
      subst hr2
      exact ⟨by simp, by simp, by simp⟩

/-- Witness for C5: on the repository's metrics test sample, the primary
delta at index 1 (adjacent dates, gap 1) is the exact difference 30. -/
theorem computeDelta_spec_witness :
    computeDelta statsSample 1 (fun p => p.realmeye_max) = some 30 := by
  have h := ((computeDelta_spec statsSample (fun p => p.realmeye_max) 1).2.2.1
      (DailyPoint.mk "2026-01-02" (some 130) (some 22) (some 1000)) 130
      (by decide) (by decide)).2
      0 (by decide) (DailyPoint.mk "2026-01-01" (some 100) (some 20) none) 100
      (by decide) (by decide)
      (fun k hk1 hk2 r _ => absurd hk1 (by omega))
      (daysFromCivil 2026 1 2) (daysFromCivil 2026 1 1) (by decide) (by decide)
  rw [h]
  decide

/-! ## Specification lemmas for the boundary interpolation -/

theorem pairwise_ts_lt (points : List LauncherPoint)
    (hs : points.Pairwise (fun a b => a.timestampMs < b.timestampMs))
    {i j : Nat} (hij : i < j) {p q : LauncherPoint}
    (hp : points[i]? = some p) (hq : points[j]? = some q) :
    p.timestampMs < q.timestampMs := by
  have hjlen : j < points.length := by
    by_contra h
    rw [List.getElem?_eq_none (by omega)] at hq
    exact Option.noConfusion hq
  have hilen : i < points.length := lt_trans hij hjlen
  rw [List.getElem?_eq_getElem hilen] at hp
  rw [List.getElem?_eq_getElem hjlen] at hq
  injection hp with hp2
  injection hq with hq2
  subst hp2
  subst hq2
  exact List.pairwise_iff_getElem.mp hs i j hilen hjlen hij

theorem bsearchViews_spec (points : List LauncherPoint)
    (hs : points.Pairwise (fun a b => a.timestampMs < b.timestampMs)) (target : Int) :
    ∀ (fuel : Nat) (low high : Int),
      0 ≤ low → low ≤ high + 1 → high < (points.length : Int) →
      (high + 1 - low).toNat ≤ fuel →
      (∀ k : Nat, (k : Int) < low → ∀ p, points[k]? = some p → p.timestampMs < target) →
      (∀ k : Nat, high < (k : Int) → ∀ p, points[k]? = some p → target < p.timestampMs) →
      (∃ i : Nat, ∃ p, points[i]? = some p ∧ p.timestampMs = target ∧
          bsearchViews points target low high fuel = Sum.inl p.views)
      ∨ (∃ b : Int, bsearchViews points target low high fuel = Sum.inr (b, b - 1) ∧
          0 ≤ b ∧ b ≤ (points.length : Int) ∧
          (∀ k : Nat, (k : Int) < b → ∀ p, points[k]? = some p → p.timestampMs < target) ∧
          (∀ k : Nat, b ≤ (k : Int) → ∀ p, points[k]? = some p → target < p.timestampMs)) := by
  intro fuel
  induction fuel with
  | zero =>
    intro low high hlow hlh hhlen hfuel hlow2 hhigh2
    have hh : high = low - 1 := by omega
    refine Or.inr ⟨low, ?_, hlow, by omega, hlow2, ?_⟩
    · rw [hh]
      rfl
    · intro k hk p hp2
      exact hhigh2 k (by omega) p hp2
  | succ f ih =>
    intro low high hlow hlh hhlen hfuel hlow2 hhigh2
    rw [bsearchViews]
    by_cases hcond : low ≤ high
    · rw [if_pos hcond]
      have hmid1 : low ≤ (low + high) / 2 := by omega
      have hmid2 : (low + high) / 2 ≤ high := by omega
      have hmidnn : (0 : Int) ≤ (low + high) / 2 := by omega
      dsimp only
      rw [jsGet, if_pos hmidnn]
      cases hp : points[((low + high) / 2).toNat]? with
      | none =>
        exfalso
        have hlt : ((low + high) / 2).toNat < points.length := by omega
        rw [List.getElem?_eq_getElem hlt] at hp
        exact Option.noConfusion hp
      | some point =>
        dsimp only
        by_cases heq : point.timestampMs = target
        · rw [if_pos heq]
          exact Or.inl ⟨((low + high) / 2).toNat, point, hp, heq, rfl⟩
        · rw [if_neg heq]
          by_cases hlt : point.timestampMs < target
          · rw [if_pos hlt]
            refine ih ((low + high) / 2 + 1) high (by omega) (by omega) hhlen (by omega)
              ?_ hhigh2
            intro k hk p2 hp2
            by_cases hkl : (k : Int) < low
            · exact hlow2 k hkl p2 hp2
            · by_cases hkm : k = ((low + high) / 2).toNat
              · subst hkm
                rw [hp] at hp2
                injection hp2 with hp3
                subst hp3
                exact hlt
              · have hkm2 : k < ((low + high) / 2).toNat := by omega
                exact lt_trans (pairwise_ts_lt points hs hkm2 hp2 hp) hlt
          · rw [if_neg hlt]
            have hgt : target < point.timestampMs :=
              lt_of_le_of_ne (not_lt.mp hlt) (Ne.symm heq)
            refine ih low ((low + high) / 2 - 1) hlow (by omega) (by omega) (by omega)
              hlow2 ?_
            intro k hk p2 hp2
            by_cases hkh : high < (k : Int)
            · exact hhigh2 k hkh p2 hp2
            · by_cases hkm : k = ((low + high) / 2).toNat
              · subst hkm
                rw [hp] at hp2
                injection hp2 with hp3
                subst hp3
                exact hgt
              · have hkm2 : ((low + high) / 2).toNat < k := by omega
                exact lt_trans hgt (pairwise_ts_lt points hs hkm2 hp hp2)
    · rw [if_neg hcond]
      have hh : high = low - 1 := by omega
      refine Or.inr ⟨low, ?_, hlow, by omega, hlow2, ?_⟩
      · rw [hh]
      · intro k hk p hp2
        exact hhigh2 k (by omega) p hp2

/-- Full behaviour of the boundary evaluation on a strictly sorted sample
list: `none` strictly outside the sampled range; the guarded linear
interpolation strictly inside a bracket; the sample's own value at an
exact timestamp hit. -/
theorem interpolate_cases (points : List LauncherPoint)
    (hs : points.Pairwise (fun a b => a.timestampMs < b.timestampMs)) (target : Int) :
    (∀ first, points.head? = some first → target < first.timestampMs →
      interpolateLauncherViewsAt points target = none) ∧
    (∀ last, points.getLast? = some last → last.timestampMs < target →
      interpolateLauncherViewsAt points target = none) ∧
    (∀ i : Nat, ∀ p, points[i]? = some p → p.timestampMs = target →
      interpolateLauncherViewsAt points target = some ((p.views : ℚ))) ∧
    (∀ i : Nat, ∀ prev next, points[i]? = some prev → points[i + 1]? = some next →
      prev.timestampMs < target → target < next.timestampMs →
      interpolateLauncherViewsAt points target =
        (if maxInterpolationGapMs < next.timestampMs - prev.timestampMs ∨
            next.views < prev.views then none
         else some ((prev.views : ℚ) +
           ((next.views - prev.views : Int) : ℚ) *
             (((target - prev.timestampMs : Int) : ℚ) /
               ((next.timestampMs - prev.timestampMs : Int) : ℚ))))) := by
  have hinit2 : ∀ k : Nat, (points.length : Int) - 1 < (k : Int) →
      ∀ p2, points[k]? = some p2 → target < p2.timestampMs := by
    intro k hk p2 hp2
    exfalso
    rw [List.getElem?_eq_none (by omega)] at hp2
    exact Option.noConfusion hp2
  have hinit1 : ∀ k : Nat, (k : Int) < 0 →
      ∀ p2, points[k]? = some p2 → p2.timestampMs < target := by
    intro k hk
    exact absurd hk (by omega)
  refine ⟨?_, ?_, ?_, ?_⟩
  · intro first hfirst hlt
    unfold interpolateLauncherViewsAt
    cases hlast : points.getLast? with
    | none => rw [hfirst]
    | some last =>
      rw [hfirst]
      dsimp only
      rw [if_pos (Or.inl hlt)]
  · intro last hlast hgt
    unfold interpolateLauncherViewsAt
    cases hfirst : points.head? with
    | none => rfl
    | some first =>
      rw [hlast]
      dsimp only
      rw [if_pos (Or.inr hgt)]
  · intro i p hp hpt
    have hilen : i < points.length := by
      by_contra h
      rw [List.getElem?_eq_none (by omega)] at hp
      exact Option.noConfusion hp
    cases hfirst : points.head? with
    | none =>
      exfalso
      rw [List.head?_eq_getElem?, List.getElem?_eq_getElem (by omega)] at hfirst
      exact Option.noConfusion hfirst
    | some first =>
      cases hlast : points.getLast? with
      | none =>
        exfalso
        rw [List.getLast?_eq_getElem?, List.getElem?_eq_getElem (by omega)] at hlast
        exact Option.noConfusion hlast
      | some last =>
        have h0 : points[0]? = some first := by rw [← List.head?_eq_getElem?]; exact hfirst
        have hn1 : points[points.length - 1]? = some last := by
          rw [← List.getLast?_eq_getElem?]; exact hlast
        have hfle : first.timestampMs ≤ target := by
          rcases Nat.eq_zero_or_pos i with hz | hpos
          · subst hz
            rw [h0] at hp
            injection hp with h2
            subst h2
            exact le_of_eq hpt
          · exact le_of_lt (hpt ▸ pairwise_ts_lt points hs hpos h0 hp)
        have hlge : target ≤ last.timestampMs := by
          rcases Nat.lt_or_ge i (points.length - 1) with hlt2 | hge2
          · exact le_of_lt (hpt ▸ pairwise_ts_lt points hs hlt2 hp hn1)
          · have hieq : i = points.length - 1 := by omega
            rw [hieq, hn1] at hp
            injection hp with h2
            subst h2
            exact le_of_eq hpt.symm
        unfold interpolateLauncherViewsAt
        rw [hfirst, hlast]
        dsimp only
        rw [if_neg (by simp only [not_or, not_lt]; exact ⟨hfle, hlge⟩)]
        rcases bsearchViews_spec points hs target points.length 0 ((points.length : Int) - 1)
            le_rfl (by omega) (by omega) (by omega) hinit1 hinit2 with
          ⟨j, pj, hpj, hpjt, heq⟩ | ⟨b, heq, hb0, hbn, hlo, hhi⟩
        · rw [heq]
          have hji : j = i := by
            rcases lt_trichotomy j i with h1 | h1 | h1
            · exfalso
              have hcon := pairwise_ts_lt points hs h1 hpj hp
              rw [hpjt, hpt] at hcon
              exact lt_irrefl target hcon
            · exact h1
            · exfalso
              have hcon := pairwise_ts_lt points hs h1 hp hpj
              rw [hpjt, hpt] at hcon
              exact lt_irrefl target hcon
          subst hji
          rw [hp] at hpj
          injection hpj with h2
          subst h2
          rfl
        · exfalso
          rcases lt_or_ge (i : Int) b with h1 | h2
          · exact absurd hpt (ne_of_lt (hlo i h1 p hp))
          · exact absurd hpt (ne_of_gt (hhi i h2 p hp))
  · intro i prev next hp hnext hprevlt hnextgt
    have hi1len : i + 1 < points.length := by
      by_contra h
      rw [List.getElem?_eq_none (by omega)] at hnext
      exact Option.noConfusion hnext
    cases hfirst : points.head? with
    | none =>
      exfalso
      rw [List.head?_eq_getElem?, List.getElem?_eq_getElem (by omega)] at hfirst
      exact Option.noConfusion hfirst
    | some first =>
      cases hlast : points.getLast? with
      | none =>
        exfalso
        rw [List.getLast?_eq_getElem?, List.getElem?_eq_getElem (by omega)] at hlast
        exact Option.noConfusion hlast
      | some last =>
        have h0 : points[0]? = some first := by rw [← List.head?_eq_getElem?]; exact hfirst
        have hn1 : points[points.length - 1]? = some last := by
          rw [← List.getLast?_eq_getElem?]; exact hlast
        have hfirstlt : first.timestampMs < target := by
          rcases Nat.eq_zero_or_pos i with hz | hpos
          · subst hz
            rw [h0] at hp
            injection hp with h2
            subst h2
            exact hprevlt
          · exact lt_trans (pairwise_ts_lt points hs hpos h0 hp) hprevlt
        have hlastgt : target < last.timestampMs := by
          rcases Nat.lt_or_ge (i + 1) (points.length - 1) with hlt2 | hge2
          · exact lt_trans hnextgt (pairwise_ts_lt points hs hlt2 hnext hn1)
          · have hieq : i + 1 = points.length - 1 := by omega
            rw [hieq, hn1] at hnext
            injection hnext with h2
            subst h2
            exact hnextgt
        unfold interpolateLauncherViewsAt
        rw [hfirst, hlast]
        dsimp only
        have hrange : ¬ (target < first.timestampMs ∨ last.timestampMs < target) := by
          simp only [not_or, not_lt]
          exact ⟨le_of_lt hfirstlt, le_of_lt hlastgt⟩
        rw [if_neg hrange]
        rcases bsearchViews_spec points hs target points.length 0 ((points.length : Int) - 1)
            le_rfl (by omega) (by omega) (by omega) hinit1 hinit2 with
          ⟨j, pj, hpj, hpjt, heq⟩ | ⟨b, heq, hb0, hbn, hlo, hhi⟩
        · exfalso
          rcases Nat.lt_or_ge j (i + 1) with h1 | h2
          · rcases Nat.lt_or_ge j i with h3 | h4
            · have hcon := pairwise_ts_lt points hs h3 hpj hp
              rw [hpjt] at hcon
              exact lt_irrefl target (lt_trans hcon hprevlt)
            · have hji : j = i := by omega
              subst hji
              rw [hp] at hpj
              injection hpj with h2b
              subst h2b
              rw [hpjt] at hprevlt
              exact lt_irrefl target hprevlt
          · rcases Nat.lt_or_ge (i + 1) j with h3 | h4
            · have hcon := pairwise_ts_lt points hs h3 hnext hpj
              rw [hpjt] at hcon
              exact lt_irrefl target (lt_trans hnextgt hcon)
            · have hji : j = i + 1 := by omega
              subst hji
              rw [hnext] at hpj
              injection hpj with h2b
              subst h2b
              rw [hpjt] at hnextgt
              exact lt_irrefl target hnextgt
        · have hbgt : (i : Int) < b := by
            by_contra hcon
            push_neg at hcon
            exact absurd hprevlt (not_lt.mpr (le_of_lt (hhi i hcon prev hp)))
          have hble : b ≤ (i : Int) + 1 := by
            by_contra hcon
            push_neg at hcon
            have hlt3 := hlo (i + 1) (by push_cast; omega) next hnext
            exact absurd hnextgt (not_lt.mpr (le_of_lt hlt3))
          have hb : b = (i : Int) + 1 := by omega
          subst hb
          rw [heq]
          dsimp only
          rw [show (i : Int) + 1 - 1 = (i : Int) from by omega]
          rw [jsGet, jsGet, if_pos (by omega : (0 : Int) ≤ (i : Int)),
            if_pos (by omega : (0 : Int) ≤ (i : Int) + 1)]
          rw [show ((i : Int)).toNat = i from by omega,
            show ((i : Int) + 1).toNat = i + 1 from by omega]
          rw [hp, hnext]
          dsimp only
          have hspan : ¬ (next.timestampMs - prev.timestampMs ≤ 0) := by
            have := pairwise_ts_lt points hs (Nat.lt_succ_self i) hp hnext
            omega
          rw [if_neg hspan]
          by_cases hgap : maxInterpolationGapMs < next.timestampMs - prev.timestampMs
          · rw [if_pos hgap, if_pos (Or.inl hgap)]
          · rw [if_neg hgap]
            by_cases hdec : next.views - prev.views < 0
            · rw [if_pos hdec, if_pos (Or.inr (by omega))]
            · rw [if_neg hdec, if_neg (by simp only [not_or]; exact ⟨hgap, by omega⟩)]

/-- C8: the merge produces exactly one `DailyPoint` per date in the union
of the sources' dates (parts 1 and 2: the output dates are pairwise
strictly increasing, hence unique, and a date appears iff some source
contributed it), and every field is exactly the source lookup, in
particular `null` — never a sentinel zero — whenever the source has no
entry for that date (part 3). -/
theorem mergeDaily_spec (realmeyeDaily realmstockDaily : List (String × Int))
    (launcherDailyLoads : List (String × Option Int)) :
    (mergeDaily realmeyeDaily realmstockDaily launcherDailyLoads).Pairwise
        (fun p q => p.date.data < q.date.data) ∧
    (∀ d : String,
      (∃ p ∈ mergeDaily realmeyeDaily realmstockDaily launcherDailyLoads, p.date = d) ↔
        (d ∈ mapKeys realmeyeDaily ∨ d ∈ mapKeys realmstockDaily ∨
          d ∈ mapKeys launcherDailyLoads)) ∧
    (∀ p ∈ mergeDaily realmeyeDaily realmstockDaily launcherDailyLoads,
      p.realmeye_max = realmeyeDaily.lookup p.date ∧
      p.realmstock_max = realmstockDaily.lookup p.date ∧
      p.launcher_loads = (launcherDailyLoads.lookup p.date).getD none) :=
  mergeDaily_cases realmeyeDaily realmstockDaily launcherDailyLoads

/-- C1: for every sorted, timestamp-deduplicated sample list (pairwise
strictly increasing timestamps) and every boundary instant, the boundary
evaluation returns `none` strictly outside the sampled range; at an
instant strictly bracketed by two adjacent samples it returns `none` when
the bracket spans more than 48 hours or its values decrease, and the
exact linear interpolation otherwise; at an instant hitting a sample
exactly the bracketing pair is degenerate (span 0, no decrease) and the
evaluation returns that sample's own value, the limit of the
interpolation formula. -/
theorem interpolate_boundary_spec (points : List LauncherPoint)
    (hs : points.Pairwise (fun a b => a.timestampMs < b.timestampMs)) (target : Int) :
    (∀ first, points.head? = some first → target < first.timestampMs →
      interpolateLauncherViewsAt points target = none) ∧
    (∀ last, points.getLast? = some last → last.timestampMs < target →
      interpolateLauncherViewsAt points target = none) ∧
    (∀ i : Nat, ∀ p, points[i]? = some p → p.timestampMs = target →
      interpolateLauncherViewsAt points target = some ((p.views : ℚ))) ∧
    (∀ i : Nat, ∀ prev next, points[i]? = some prev → points[i + 1]? = some next →
      prev.timestampMs < target → target < next.timestampMs →
      interpolateLauncherViewsAt points target =
        (if maxInterpolationGapMs < next.timestampMs - prev.timestampMs ∨
            next.views < prev.views then none
         else some ((prev.views : ℚ) +
           ((next.views - prev.views : Int) : ℚ) *
             (((target - prev.timestampMs : Int) : ℚ) /
               ((next.timestampMs - prev.timestampMs : Int) : ℚ))))) :=
  interpolate_cases points hs target

/-- Witness for C1 at a concrete bracketed instant: halfway between
samples of views 10 and 30 taken two hours apart, the boundary value is
the interpolated 20. -/
theorem interpolate_boundary_spec_witness :
    interpolateLauncherViewsAt [LauncherPoint.mk 0 10, LauncherPoint.mk 7200000 30]
      3600000 = some 20 := by
  have h := (interpolate_boundary_spec [LauncherPoint.mk 0 10, LauncherPoint.mk 7200000 30]
      (by decide) 3600000).2.2.2 0 (LauncherPoint.mk 0 10) (LauncherPoint.mk 7200000 30)
      (by decide) (by decide) (by decide) (by decide)
  rw [h]
  norm_num [maxInterpolationGapMs]

/-! ## Specification lemmas for the daily-loads loop -/

theorem launcherLoadsLoopD_spec (points : List LauncherPoint) (lastTs : Int) :
    ∀ (n : Nat) (startDay : Int) (acc : List (Int × Option Int)) (fuel : Nat),
      n = (lastTs / msPerDay - startDay).toNat →
      n ≤ fuel →
      (∀ key ∈ mapKeys acc, key < startDay) →
      launcherLoadsLoopD points lastTs acc (startDay * msPerDay) fuel =
        acc ++ (List.range n).map (fun (k : Nat) =>
          (startDay + (k : Int), dailyLoadValue points (startDay + (k : Int)))) := by
  intro n
  induction n with
  | zero =>
    intro startDay acc fuel hn _ _
    have hstop : ¬ (startDay * msPerDay + msPerDay ≤ lastTs) := by
      simp only [msPerDay] at hn ⊢
      omega
    cases fuel with
    | zero => simp [launcherLoadsLoopD]
    | succ f =>
      rw [launcherLoadsLoopD, if_neg hstop]
      simp
  | succ k ih =>
    intro startDay acc fuel hn hfuel hkeys
    have hgo : startDay * msPerDay + msPerDay ≤ lastTs := by
      simp only [msPerDay] at hn ⊢
      omega
    cases fuel with
    | zero => exact absurd hfuel (by omega)
    | succ f =>
      rw [launcherLoadsLoopD, if_pos hgo]
      have hdate : startDay * msPerDay / msPerDay = startDay :=
        Int.mul_ediv_cancel startDay (by norm_num [msPerDay])
      have hend : startDay * msPerDay + msPerDay = (startDay + 1) * msPerDay := by ring
      dsimp only
      rw [hdate, hend]
      have hfresh : startDay ∉ mapKeys acc := fun hmem => lt_irrefl startDay (hkeys startDay hmem)
      rw [mapSet_append_of_not_mem acc startDay _ hfresh]
      rw [ih (startDay + 1) (acc ++ [(startDay, _)]) f
        (by simp only [msPerDay] at hn ⊢; omega) (by omega) ?hkeys2]
      case hkeys2 =>
        intro key hkey
        rw [mapKeys, List.map_append] at hkey
        rcases List.mem_append.mp hkey with h1 | h1
        · exact lt_trans (hkeys key h1) (by omega)
        · simp at h1
          omega
      rw [List.append_assoc]
      congr 1
      rw [List.range_succ_eq_map, List.map_cons, List.map_map, List.singleton_append]
      refine congrArg₂ List.cons ?_ ?_
      · simp [dailyLoadValue]
      · apply List.map_congr_left
        intro a _
        have harg : startDay + ((a + 1 : Nat) : Int) = startDay + 1 + (a : Int) := by
          push_cast
          ring
        simp only [Function.comp_apply, Nat.succ_eq_add_one, harg]

/-- C2: given at least two distinct-timestamp counter samples (sorted,
deduplicated, all on or after the cutoff), the interpolator emits exactly
one entry per UTC day from the cutoff day up to but not including the day
containing the last sample — in particular no day before the cutoff — and
each day's value is independently `round(value(midnight(D+1)) -
value(midnight(D)))` when both boundary evaluations are defined and the
difference is non-negative, and `none` otherwise (`dailyLoadValue`). -/
theorem aggregateLauncherLoadsD_spec (points : List LauncherPoint)
    (hs : points.Pairwise (fun a b => a.timestampMs < b.timestampMs))
    (h2 : 2 ≤ points.length)
    (hcut : ∀ p ∈ points, launcherMinDateMs ≤ p.timestampMs) :
    ∀ last, points.getLast? = some last →
      aggregateLauncherLoadsD points =
        (List.range (last.timestampMs / msPerDay - launcherMinDay).toNat).map
          (fun (k : Nat) =>
            (launcherMinDay + (k : Int),
              dailyLoadValue points (launcherMinDay + (k : Int)))) := by
  intro last hlast
  clear hs hcut
  unfold aggregateLauncherLoadsD
  rw [if_neg (by omega)]
  cases hfirst : points.head? with
  | none =>
    exfalso
    rw [List.head?_eq_getElem?, List.getElem?_eq_getElem (by omega)] at hfirst
    exact Option.noConfusion hfirst
  | some first =>
    rw [hlast]
    dsimp only
    have hstart : launcherMinDateMs = launcherMinDay * msPerDay := rfl
    rw [hstart]
    rw [launcherLoadsLoopD_spec points last.timestampMs
      (last.timestampMs / msPerDay - launcherMinDay).toNat launcherMinDay []
      ((last.timestampMs - launcherMinDay * msPerDay).toNat + 1) rfl
      (by simp only [msPerDay]; omega) (by intro key hkey; simp [mapKeys] at hkey)]
    rw [List.nil_append]

/-- Witness for C2: two samples exactly one day apart, both at midnight,
starting at the cutoff; exactly one day is emitted, with load 70. -/
theorem aggregateLauncherLoadsD_spec_witness :
    aggregateLauncherLoadsD [LauncherPoint.mk launcherMinDateMs 0,
      LauncherPoint.mk (launcherMinDateMs + msPerDay) 70] =
      [(launcherMinDay, some 70)] := by
  have h := aggregateLauncherLoadsD_spec
    [LauncherPoint.mk launcherMinDateMs 0, LauncherPoint.mk (launcherMinDateMs + msPerDay) 70]
    (by decide) (by decide) (by decide)
    (LauncherPoint.mk (launcherMinDateMs + msPerDay) 70) (by decide)
  rw [h]
  have hn : (((launcherMinDateMs + msPerDay : Int)) / msPerDay - launcherMinDay).toNat = 1 := by
    decide
  rw [hn]
  have e0 := (interpolate_cases
    [LauncherPoint.mk launcherMinDateMs 0, LauncherPoint.mk (launcherMinDateMs + msPerDay) 70]
    (by decide) (launcherMinDay * msPerDay)).2.2.1 0 (LauncherPoint.mk launcherMinDateMs 0)
    (by decide) (by decide)
  have e1 := (interpolate_cases
    [LauncherPoint.mk launcherMinDateMs 0, LauncherPoint.mk (launcherMinDateMs + msPerDay) 70]
    (by decide) ((launcherMinDay + 1) * msPerDay)).2.2.1 1
    (LauncherPoint.mk (launcherMinDateMs + msPerDay) 70) (by decide) (by decide)
  rw [show List.range 1 = [0] from rfl, List.map_cons, List.map_nil]
  simp only [Nat.cast_zero, add_zero]
  rw [dailyLoadValue, e0, e1]
  norm_num [round_eq]

/-- C10: when the counter source yields fewer than two distinct-timestamp
samples after deduplication, the daily-loads map is completely empty — no
dates at all, not even null-valued entries — so the merged dataset's date
union is exactly the union of the other two sources' dates. -/
theorem launcher_under_two_samples (rows : List LauncherRow)
    (hfew : (normalizeLauncherPoints rows).length < 2) :
    aggregateLauncherLoads rows = [] ∧
    (∀ realmeyeDaily realmstockDaily : List (String × Int), ∀ d : String,
      (∃ p ∈ mergeDaily realmeyeDaily realmstockDaily (aggregateLauncherLoads rows),
          p.date = d) ↔
        (d ∈ mapKeys realmeyeDaily ∨ d ∈ mapKeys realmstockDaily)) := by
  have hempty : aggregateLauncherLoads rows = [] := by
    unfold aggregateLauncherLoads
    rw [if_pos hfew]
  refine ⟨hempty, ?_⟩
  intro realmeyeDaily realmstockDaily d
  rw [hempty]
  rw [(mergeDaily_cases realmeyeDaily realmstockDaily []).2.1 d]
  simp [mapKeys]

/-- Witness for C10 at the empty row list (zero samples). -/
theorem launcher_under_two_samples_witness :
    aggregateLauncherLoads [] = [] :=
  (launcher_under_two_samples [] (by decide)).1

/-- Witness for the amended C7 at a concrete well-formed row. -/
theorem parse_acceptance_characterization_witness :
    (parseCsvLine "00:00:00,2024-01-01,42").isSome = true :=
  (parse_acceptance_characterization "00:00:00,2024-01-01,42").1.mpr
    ⟨by decide, by decide, by decide, by decide⟩

/-- Witness for C8 at a concrete one-source dataset. -/
theorem mergeDaily_spec_witness :
    (DailyPoint.mk "2024-07-03" (some 5) none none).launcher_loads =
      (List.lookup "2024-07-03" ([] : List (String × Option Int))).getD none :=
  ((mergeDaily_spec [("2024-07-03", (5 : Int))] [] []).2.2
    (DailyPoint.mk "2024-07-03" (some 5) none none) (by decide)).2.2
